import Mathlib

/-!
Verification development for the boon JSON-Schema compiler/validator
(src/compiler.rs and src/validator.rs).

Shallow embedding notes.

* JSON values are modelled by the mutual inductive family `Value
  / VList / VFields` so that all recursion over values is structural
  (and therefore kernel-evaluable).  `VFields` models `serde_json::Map`
  (a BTreeMap): fields are kept in the map's iteration order and keys
  are unique.
* JSON numbers are modelled by `Int`: this covers the i64/u64-valued
  instances of `serde_json::Number`.  `Number::as_f64`, used by
  `num_validate` for every numeric comparison, is modelled by `to_f64`,
  the IEEE-754 round-to-nearest-even conversion of an integer to a
  binary64 value (exact below 2^53, rounded to 53 significant bits
  above).  The `multipleOf` check divides the two converted values in
  binary64 and tests `fract() != 0.0`; `div_fract_nonzero` models that
  test: the real quotient is rounded to the nearest binary64 (ties to
  even, 53 significant bits) and the test holds exactly when the result
  is not an integer (a zero divisor yields a NaN or infinite quotient,
  whose `fract()` compares non-zero).
* The keywords that delegate to external collaborators are not modelled:
  `pattern`/`patternProperties` (external regex engine), `format`,
  `contentEncoding`/`contentMediaType`/`contentSchema` (external
  checker/decoder registries, spec section 6).  No claim exercises them.
* Code of the repository that lives outside src/ (the `Schemas` store's
  `insert`/`enqueue`/`get`, `Roots::or_load`, `Root::lookup_ptr`,
  `Root::base_url`, url joining and the `util` helpers `split`,
  `escape`, `equals`, `is_integer`, `Type::from_str`) is modelled from
  the spec; each such definition carries a doc comment saying so.
* The recursive validator and the compiler's breadth-first loop are
  given explicit fuel; `none` means the fuel ran out.  Every theorem
  about a run either fixes a concrete sufficient fuel or quantifies over
  runs that returned `some`.
-/

namespace Boon

mutual

/-- JSON value, mirroring `serde_json::Value` with `Int`-valued numbers.
The family is mutual (rather than nesting `List`) so that equality and
the interpreter evaluate by structural recursion. -/
inductive Value where
  | null : Value
  | bool (b : Bool) : Value
  | num (n : Int) : Value
  | str (s : String) : Value
  | arr (l : VList) : Value
  | obj (l : VFields) : Value

inductive VList where
  | nil : VList
  | cons (hd : Value) (tl : VList) : VList

inductive VFields where
  | nil : VFields
  | cons (k : String) (v : Value) (tl : VFields) : VFields

end

/-- View of a `VList` as a Lean list. -/
def VList.toList : VList → List Value
  | .nil => []
  | .cons v tl => v :: tl.toList

/-- View of a `VFields` as a Lean association list. -/
def VFields.toList : VFields → List (String × Value)
  | .nil => []
  | .cons k v tl => (k, v) :: tl.toList

/-- Build a `VList` from a Lean list. -/
def VList.ofList : List Value → VList
  | [] => .nil
  | v :: tl => .cons v (VList.ofList tl)

/-- Build a `VFields` from a Lean association list. -/
def VFields.ofList : List (String × Value) → VFields
  | [] => .nil
  | (k, v) :: tl => .cons k v (VFields.ofList tl)

mutual

/- Modelled from the spec: the util equals deep JSON equality used by
enum, const and uniqueItems (serde equality; objects compare their
sorted field lists). -/
def Value.beq : Value → Value → Bool
  | .null, .null => true
  | .bool a, .bool b => a == b
  | .num a, .num b => a == b
  | .str a, .str b => a == b
  | .arr a, .arr b => VList.beq a b
  | .obj a, .obj b => VFields.beq a b
  | _, _ => false

/-- Element-wise equality of JSON arrays. -/
def VList.beq : VList → VList → Bool
  | .nil, .nil => true
  | .cons x xs, .cons y ys => Value.beq x y && VList.beq xs ys
  | _, _ => false

/-- Field-wise equality of JSON objects (both in map order). -/
def VFields.beq : VFields → VFields → Bool
  | .nil, .nil => true
  | .cons k x xs, .cons k' y ys => k == k' && Value.beq x y && VFields.beq xs ys
  | _, _ => false

end

/-- First value bound to a key in an object, like `Map::get`. -/
def VFields.get? (fl : VFields) (key : String) : Option Value :=
  (fl.toList.find? (fun p => p.1 == key)).map (fun p => p.2)

/-- Key list of an object, in map order. -/
def VFields.keys (fl : VFields) : List String :=
  fl.toList.map (fun p => p.1)

/-- Membership of a key, like `Map::contains_key`. -/
def VFields.containsKey (fl : VFields) (key : String) : Bool :=
  (fl.get? key).isSome

/-- The JSON type lattice of the validator (`Type` in the source). -/
inductive JType where
  | null
  | boolean
  | number
  | integer
  | string
  | array
  | object
deriving DecidableEq, BEq, Repr

/-- Modelled from the spec: `Type::of`, classifying a JSON value (a
number is always classified `number`, never `integer`). -/
def JType.of : Value → JType
  | .null => .null
  | .bool _ => .boolean
  | .num _ => .number
  | .str _ => .string
  | .arr _ => .array
  | .obj _ => .object

/-- Modelled from the spec: `Type::from_str` on the names accepted by
the `type` keyword. -/
def JType.fromStr : String → Option JType
  | "null" => some .null
  | "boolean" => some .boolean
  | "number" => some .number
  | "integer" => some .integer
  | "string" => some .string
  | "array" => some .array
  | "object" => some .object
  | _ => none

/-- Modelled from the spec: `util::is_integer`, whether a value is an
integer-valued number.  With `Int`-modelled numbers every number
qualifies. -/
def is_integer : Value → Bool
  | .num _ => true
  | _ => false

/-- Token of an instance-location JSON pointer (`InstanceToken`). -/
inductive InstToken where
  | prop (name : String)
  | item (index : Nat)
deriving DecidableEq, Repr

/-- Token within a keyword path (`SchemaToken`). -/
inductive SchemaToken where
  | prop (name : String)
  | item (index : Nat)
deriving DecidableEq, Repr

/-- JSON pointer inside a schema: keyword plus optional token
(`KeywordPath`). -/
structure KeywordPath where
  keyword : String
  token : Option SchemaToken
deriving DecidableEq, Repr

/-- Typed error kind (`ErrorKind`), restricted to the kinds the two
embedded source files can produce. -/
inductive ErrorKind where
  | schemaErr (url : String)
  | group
  | falseSchema
  | refCycle (url : String) (kwLoc1 : String) (kwLoc2 : String)
  | typeMismatch (got : JType) (want : List JType)
  | enumErr (got : Value) (want : List Value)
  | constErr (got : Value) (want : Value)
  | reference (url : String)
  | minimum (got : Int) (want : Int)
  | maximum (got : Int) (want : Int)
  | exclusiveMinimum (got : Int) (want : Int)
  | exclusiveMaximum (got : Int) (want : Int)
  | multipleOf (got : Int) (want : Int)
  | minProperties (got : Nat) (want : Nat)
  | maxProperties (got : Nat) (want : Nat)
  | required (want : List String)
  | dependency (prop : String) (missing : List String)
  | dependentRequired (prop : String) (missing : List String)
  | additionalProp (got : String)
  | minItems (got : Nat) (want : Nat)
  | maxItems (got : Nat) (want : Nat)
  | uniqueItems (got1 : Nat) (got2 : Nat)
  | additionalItems (got : Nat)
  | minLength (got : Nat) (want : Nat)
  | maxLength (got : Nat) (want : Nat)
  | containsErr
  | minContains (got : List Nat) (want : Nat)
  | maxContains (got : List Nat) (want : Nat)
  | notErr
  | allOf
  | anyOf
  | oneOf (got : Option (Nat × Nat))

/-- Structured validation error (`ValidationError`): absolute keyword
location, instance location, kind and a causes tree. -/
structure ValidationError where
  schemaUrl : String
  keywordPath : Option KeywordPath
  instanceLocation : List InstToken
  kind : ErrorKind
  causes : List ValidationError

/-- Whether an error kind is the `Group` flatten marker. -/
def ErrorKind.isGroup : ErrorKind → Bool
  | .group => true
  | _ => false

/-- The `Validator::error` helper: under `bool_result` it fabricates a
cheap empty `Group` error, otherwise it records the schema url, keyword
path, instance location and kind. -/
def mkError (boolResult : Bool) (schemaLoc : String) (kwPath : Option KeywordPath)
    (vloc : List InstToken) (kind : ErrorKind) : ValidationError :=
  if boolResult then
    { schemaUrl := "", keywordPath := none, instanceLocation := [], kind := .group, causes := [] }
  else
    { schemaUrl := schemaLoc, keywordPath := kwPath, instanceLocation := vloc,
      kind := kind, causes := [] }

/-- Per-key dependency (`Dependency`): a required-property list or a
schema reference. -/
inductive Dependency where
  | props (l : List String)
  | schemaRef (idx : Nat)
deriving DecidableEq, Repr

/-- Boolean-or-schema policy (`Additional`) used by
`additionalProperties` and `additionalItems`. -/
inductive Additional where
  | bool (b : Bool)
  | schemaRef (idx : Nat)
deriving DecidableEq, Repr

/-- Pre-2020 shape of `items` (`Items`): one schema or a list. -/
inductive Items where
  | schemaRef (idx : Nat)
  | schemaRefs (l : List Nat)
deriving DecidableEq, Repr

/-- Compiled `enum` data (spec data model: `enum:
Option of types and values`); `types` caches the JSON types of
`values`. -/
structure Enum where
  types : List JType
  values : List Value

/-- Target of a `dynamicRef` (spec data model: `dynamic_ref:
Option of idx and anchor`). -/
structure DynamicRef where
  sch : Nat
  anchor : Option String
deriving DecidableEq, Repr

/-- Compiled schema graph node (`Schema`).  Field names follow the
source.  The regex/format/content fields are not modelled (see the
header). -/
structure Schema where
  idx : Nat := 0
  loc : String
  resource : Nat := 0
  draft_version : Nat
  boolean : Option Bool := none
  types : List JType := []
  enum_ : Option Enum := none
  constant : Option Value := none
  ref_ : Option Nat := none
  recursive_ref : Option Nat := none
  recursive_anchor : Bool := false
  dynamic_ref : Option DynamicRef := none
  dynamic_anchor : Option String := none
  dynamic_anchors : List (String × Nat) := []
  minimum : Option Int := none
  maximum : Option Int := none
  exclusive_minimum : Option Int := none
  exclusive_maximum : Option Int := none
  multiple_of : Option Int := none
  min_properties : Option Nat := none
  max_properties : Option Nat := none
  required : List String := []
  dependencies : List (String × Dependency) := []
  dependent_required : List (String × List String) := []
  dependent_schemas : List (String × Nat) := []
  properties : List (String × Nat) := []
  additional_properties : Option Additional := none
  property_names : Option Nat := none
  unevaluated_properties : Option Nat := none
  min_items : Option Nat := none
  max_items : Option Nat := none
  unique_items : Bool := false
  items : Option Items := none
  additional_items : Option Additional := none
  prefix_items : List Nat := []
  items2020 : Option Nat := none
  contains : Option Nat := none
  min_contains : Option Nat := none
  max_contains : Option Nat := none
  contains_marks_evaluated : Bool := false
  unevaluated_items : Option Nat := none
  min_length : Option Nat := none
  max_length : Option Nat := none
  not_ : Option Nat := none
  all_of : List Nat := []
  any_of : List Nat := []
  one_of : List Nat := []
  if_ : Option Nat := none
  then_ : Option Nat := none
  else_ : Option Nat := none
  all_props_evaluated : Bool := false
  all_items_evaluated : Bool := false

/-- The `Schema::new` constructor: a fresh node for a location with all
assertion fields at their defaults.  `draft_version` is copied from the
owning root (spec data model), passed here explicitly. -/
def Schema.new (loc : String) (draft_version : Nat) : Schema :=
  { loc := loc, draft_version := draft_version }

/-- Modelled from the spec (section 4.6): the flat index-addressed
`Schemas` store.  `by_loc` maps canonical locations to reserved or
filled indices (deduplication), `nodes` holds the filled slots, `next`
is the next fresh index. -/
structure Schemas where
  by_loc : List (String × Nat)
  nodes : List (Nat × Schema)
  next : Nat

/-- The empty store. -/
def Schemas.empty : Schemas := ⟨[], [], 0⟩

/-- Modelled from the spec: `Schemas::get`, O(1) lookup by index
(total here, defaulting to an empty node on a missing slot). -/
def Schemas.get (g : Schemas) (idx : Nat) : Schema :=
  ((g.nodes.find? (fun p => p.1 == idx)).map (fun p => p.2)).getD (Schema.new "" 0)

/-- Reservation view of the store during one compile call: the
`by_loc` map and fresh-index counter (the part of `Schemas` that
`enqueue` mutates through interior mutability in the source) together
with the pending queue.  The node list itself is only touched by
`insert`. -/
structure RState where
  by_loc : List (String × Nat)
  next : Nat
  queue : List String

/-- Modelled from the spec (section 4.5): `Schemas::enqueue`.  If the
canonical location already has an index return it; otherwise reserve a
fresh index, record the pending mapping and append the location to the
queue. -/
def RState.enqueue (r : RState) (loc : String) : Nat × RState :=
  match r.by_loc.find? (fun p => p.1 == loc) with
  | some p => (p.2, r)
  | none =>
      (r.next,
       { by_loc := r.by_loc ++ [(loc, r.next)], next := r.next + 1,
         queue := r.queue ++ [loc] })

/-- Modelled from the spec (section 4.6): `Schemas::insert`.  The node
is placed at the index reserved for its location (fresh if none); an
already-filled slot is left untouched (spec invariant 3: inserted nodes
are never mutated).  The node's `idx` field is set to its index. -/
def Schemas.insert (g : Schemas) (loc : String) (sch : Schema) : Nat × Schemas :=
  match g.by_loc.find? (fun p => p.1 == loc) with
  | some p =>
      if (g.nodes.find? (fun q => q.1 == p.2)).isSome then (p.2, g)
      else (p.2, { g with nodes := g.nodes ++ [(p.2, { sch with idx := p.2 })] })
  | none =>
      (g.next,
       { g with by_loc := g.by_loc ++ [(loc, g.next)],
                nodes := g.nodes ++ [(g.next, { sch with idx := g.next })],
                next := g.next + 1 })

/-- Dynamic-scope frame (`Scope`): schema index, the reference keyword
by which it was entered (if a jump), and the instance identity `vid`. -/
structure Frame where
  sch : Nat
  ref_kw : Option String
  vid : Nat
deriving DecidableEq, Repr

/-- The `Scope::check_cycle` walk: look through the parent frames while
they share the current frame's `vid`; report the first one with the
same schema index (returned together with its own ancestors, as the
source returns the ancestor scope itself). -/
def check_cycle (cur : Frame) : List Frame → Option (List Frame)
  | [] => none
  | p :: rest =>
      if p.vid != cur.vid then none
      else if p.sch == cur.sch then some (p :: rest)
      else check_cycle cur rest

/-- Drop the first `n` characters of a string. -/
def strDrop (s : String) (n : Nat) : String :=
  String.mk (s.data.drop n)

/-- The `Validator::kw_loc` breadcrumb: concatenation, outermost first,
of each frame's reference keyword or, absent one, of the suffix its
location adds over its parent's location. -/
def kw_loc (g : Schemas) : List Frame → String
  | [] => ""
  | [_] => ""
  | f :: p :: rest =>
      kw_loc g (p :: rest) ++
        (f.ref_kw.getD (strDrop (g.get f.sch).loc (g.get p.sch).loc.length))

/-- Annotation set (`Uneval`): properties and item indices not yet
evaluated for the current instance/node pair. -/
structure Uneval where
  props : List String
  items : List Nat

/-- Whether both components are empty. -/
def Uneval.is_empty (u : Uneval) : Bool :=
  u.props.isEmpty && u.items.isEmpty

/-- The `Uneval::from` constructor: full key/index set when the node or
a caller needs the annotations and the compiler could not elide them,
empty otherwise. -/
def Uneval.ofVal (v : Value) (s : Schema) (caller_needs : Bool) : Uneval :=
  match v with
  | .obj fl =>
      if !s.all_props_evaluated && (caller_needs || s.unevaluated_properties.isSome) then
        ⟨fl.keys, []⟩
      else ⟨[], []⟩
  | .arr a =>
      if !s.all_items_evaluated && (caller_needs || s.unevaluated_items.isSome) then
        ⟨[], List.range a.toList.length⟩
      else ⟨[], []⟩
  | _ => ⟨[], []⟩

/-- The `Uneval::merge` rule: intersect with the child's set. -/
def Uneval.merge (u other : Uneval) : Uneval :=
  ⟨u.props.filter (fun p => other.props.contains p),
   u.items.filter (fun i => other.items.contains i)⟩

/-- Mutable validator state threaded through the assertion phases: the
annotation set and the error list of the current node visit. -/
structure VState where
  uneval : Uneval
  errors : List ValidationError

/-- The `Validator::find_missing` helper: required properties absent
from the object; under `bool_result` the result list is left empty. -/
def find_missing (br : Bool) (fl : List (String × Value)) (required : List String) :
    Option (List String) :=
  let missing := required.filter (fun p => !(fl.any (fun q => q.1 == p)))
  if missing.isEmpty then none
  else if br then some [] else some missing

/-- The `Validator::add_errors` helper: a single error is pushed as-is,
several are wrapped under the given kind. -/
def add_errors (br : Bool) (schemaLoc : String) (st : VState)
    (errs : List ValidationError) (kw : Option KeywordPath)
    (vloc : List InstToken) (kind : ErrorKind) : VState :=
  if errs.length == 1 then { st with errors := st.errors ++ errs }
  else
    { st with errors :=
        st.errors ++ [{ mkError br schemaLoc kw vloc kind with causes := errs }] }

/-- Index of the highest set bit, for naturals below 2^64 (enough for
every `serde_json` integer). -/
def msbIdx (a : Nat) : Nat :=
  (List.range 64).foldl (fun acc k => if 2 ^ k ≤ a then k else acc) 0

/-- IEEE-754 binary64 rounding of an integer (`Number::as_f64` on the
i64/u64-valued numbers): exact up to 2^53, round-to-nearest, ties to
even, at 53 significant bits above. -/
def to_f64 (n : Int) : Int :=
  let a := n.natAbs
  if a ≤ 2 ^ 53 then n
  else
    let shift := msbIdx a - 52
    let q := a / 2 ^ shift
    let r := a % 2 ^ shift
    let half := 2 ^ (shift - 1)
    let q' := if half < r || (r == half && q % 2 == 1) then q + 1 else q
    (if n < 0 then (-1 : Int) else 1) * (q' * 2 ^ shift : Nat)

/-- Rust's `(a / b).fract() != 0.0` on two integer-valued binary64
numbers `a` and `b` (the `multipleOf` test of `num_validate`): the IEEE
quotient is the real quotient rounded to the nearest binary64 (ties to
even, 53 significant bits), and `fract()` is non-zero exactly when that
quotient is not an integer.  A zero divisor gives a NaN or infinite
quotient, whose `fract()` is NaN and therefore non-zero.  From
magnitude 2^52 up every binary64 value is an integer, so `fract()` is
zero there.  The binade search is bounded for quotient magnitudes in
(2^-70, 2^70), which covers every pair of nonzero integers of magnitude
below 2^64 (the serde_json range, as for `to_f64`). -/
def div_fract_nonzero (af bf : Int) : Bool :=
  let a := af.natAbs
  let b := bf.natAbs
  if b == 0 then true
  else if a == 0 then false
  else
    -- largest e with 2^(e - 70) ≤ a / b, found by bounded search
    let e := (List.range 141).foldl (fun acc k => if b * 2 ^ k ≤ a * 2 ^ 70 then k else acc) 0
    if 122 ≤ e then false
    else
      -- binary64 values in this binade are the multiples of 2^(e - 122):
      -- scale the quotient by 2^(122 - e) and round to the nearest
      -- integer mantissa, ties to the even one
      let n := a * 2 ^ (122 - e)
      let q := n / b
      let r := n % b
      let m := if b < 2 * r then q + 1
               else if 2 * r < b then q
               else if q % 2 == 0 then q else q + 1
      !(m % 2 ^ (122 - e) == 0)

/-- Sub-validation callback for `validate_val` (descend into a
sub-value): schema index, sub-value, extended instance location. -/
abbrev VV := Nat → Value → List InstToken → Option (Except ValidationError Unit)

/-- Sub-validation callback for `_validate_self` (same value, another
schema): state, schema index, reference keyword, extra bool-result
flag.  On success the returned state has the child's annotations merged
in; on failure the state is returned untouched. -/
abbrev VS := VState → Nat → Option String → Bool →
    Option (VState × Except ValidationError Unit)

/-- Push one error onto the state. -/
def pushErr (st : VState) (e : ValidationError) : VState :=
  { st with errors := st.errors ++ [e] }

/-- Remove one property from the annotation set. -/
def removeProp (st : VState) (pname : String) : VState :=
  { st with uneval := { st.uneval with props := st.uneval.props.filter (fun p => p != pname) } }

/-- Remove one item index from the annotation set. -/
def removeItem (st : VState) (i : Nat) : VState :=
  { st with uneval := { st.uneval with items := st.uneval.items.filter (fun j => j != i) } }

/-- The per-property loop of `Validator::obj_validate`: `properties`
then `additionalProperties` per field, marking evaluated names off the
annotation set; under `bool_result` a pending error stops the loop,
ending the pass with the state so far (the source's early return). -/
def obj_props_loop (s : Schema) (br : Bool) (vloc : List InstToken) (vv : VV) :
    List (String × Value) → VState → Option VState
  | [], st => some st
  | pv :: rest, st =>
      if br && !st.errors.isEmpty then some st
      else do
        let mut st := st
        let mut evaluated := false
        -- properties --
        match s.properties.find? (fun q => q.1 == pv.1) with
        | some q =>
            match (← vv q.2 pv.2 (vloc ++ [.prop pv.1])) with
            | .ok _ => evaluated := true
            | .error e => st := pushErr st e
        | none => pure ()
        if !evaluated then
          -- additionalProperties --
          match s.additional_properties with
          | some (.bool allowed) =>
              if !allowed then
                st := pushErr st
                  (mkError br s.loc (some ⟨"additionalProperties", none⟩) vloc
                    (.additionalProp pv.1))
              evaluated := true
          | some (.schemaRef sch) =>
              match (← vv sch pv.2 (vloc ++ [.prop pv.1])) with
              | .error e => st := pushErr st e
              | .ok _ => pure ()
              evaluated := true
          | none => pure ()
        if evaluated then
          st := removeProp st pv.1
        obj_props_loop s br vloc vv rest st

/-- The `Validator::obj_validate` pass over an object instance
(`patternProperties` is not modelled, see the header). -/
def obj_validate (s : Schema) (br : Bool) (fl : List (String × Value))
    (vloc : List InstToken) (vv : VV) (vs : VS) (st0 : VState) : Option VState := do
  let mut st := st0
  let mkE := fun (kw : Option KeywordPath) (kind : ErrorKind) => mkError br s.loc kw vloc kind
  -- minProperties --
  match s.min_properties with
  | some min =>
      if fl.length < min then
        st := pushErr st (mkE (some ⟨"minProperties", none⟩) (.minProperties fl.length min))
  | none => pure ()
  -- maxProperties --
  match s.max_properties with
  | some max =>
      if fl.length > max then
        st := pushErr st (mkE (some ⟨"maxProperties", none⟩) (.maxProperties fl.length max))
  | none => pure ()
  -- propertyNames --
  match s.property_names with
  | some sch =>
      for p in fl do
        match (← vv sch (.str p.1) vloc) with
        | .error e => st := pushErr st e
        | .ok _ => pure ()
  | none => pure ()
  -- required --
  match find_missing br fl s.required with
  | some missing => st := pushErr st (mkE (some ⟨"required", none⟩) (.required missing))
  | none => pure ()
  if br && !st.errors.isEmpty then
    return st
  -- dependencies --
  for pd in s.dependencies do
    if fl.any (fun q => q.1 == pd.1) then
      match pd.2 with
      | .props required =>
          match find_missing br fl required with
          | some missing =>
              st := pushErr st
                (mkE (some ⟨"dependencies", some (.prop pd.1)⟩) (.dependency pd.1 missing))
          | none => pure ()
      | .schemaRef sch =>
          let (st', r) ← vs st sch none false
          st := st'
          match r with
          | .error e => st := pushErr st e
          | .ok _ => pure ()
  -- dependentSchemas --
  for pd in s.dependent_schemas do
    if fl.any (fun q => q.1 == pd.1) then
      let (st', r) ← vs st pd.2 none false
      st := st'
      match r with
      | .error e => st := pushErr st e
      | .ok _ => pure ()
  -- dependentRequired --
  for pd in s.dependent_required do
    if fl.any (fun q => q.1 == pd.1) then
      match find_missing br fl pd.2 with
      | some missing =>
          st := pushErr st
            (mkE (some ⟨"dependentRequired", some (.prop pd.1)⟩) (.dependentRequired pd.1 missing))
      | none => pure ()
  -- per-property loop --
  obj_props_loop s br vloc vv fl st

/-- First duplicate pair of a list under JSON equality, scanning as the
source's `uniqueItems` double loop does (outer index ascending from 1,
inner from 0); returns `(j, i)` with `j < i`. -/
def first_dup (arr : List Value) : Option (Nat × Nat) :=
  (List.range arr.length).findSome? (fun i =>
    if i == 0 then none
    else
      ((List.range i).find? (fun j => Value.beq (arr.getD i .null) (arr.getD j .null))).map
        (fun j => (j, i)))

/-- The `contains` element loop: collect matching indices and branch
errors; from 2020 on, a matching index is removed from the annotation
set. -/
def contains_loop (vv : VV) (csch : Nat) (draft_version : Nat) (vloc : List InstToken) :
    List Value → Nat → VState → List Nat → List ValidationError →
    Option (VState × List Nat × List ValidationError)
  | [], _, st, matched, errs => some (st, matched, errs)
  | item :: rest, i, st, matched, errs =>
      match vv csch item (vloc ++ [.item i]) with
      | none => none
      | some (.error e) =>
          contains_loop vv csch draft_version vloc rest (i + 1) st matched (errs ++ [e])
      | some (.ok _) =>
          let st := if draft_version ≥ 2020 then removeItem st i else st
          contains_loop vv csch draft_version vloc rest (i + 1) st (matched ++ [i]) errs

/-- The `contains` / `minContains` / `maxContains` section of
`Validator::arr_validate`. -/
def contains_section (s : Schema) (br : Bool) (vv : VV) (arr : List Value)
    (vloc : List InstToken) (st0 : VState) : Option VState := do
  let (st1, contains_matched, contains_errors) ←
    match s.contains with
    | none => some (st0, ([] : List Nat), ([] : List ValidationError))
    | some csch => contains_loop vv csch s.draft_version vloc arr 0 st0 [] []
  let mut st := st1
  -- minContains --
  match s.min_contains with
  | some min =>
      if contains_matched.length < min then
        st := pushErr st
          { mkError br s.loc (some ⟨"minContains", none⟩) vloc
              (.minContains contains_matched min) with causes := contains_errors }
  | none =>
      if s.contains.isSome && contains_matched.isEmpty then
        st := pushErr st
          { mkError br s.loc (some ⟨"contains", none⟩) vloc .containsErr with
              causes := contains_errors }
  -- maxContains --
  match s.max_contains with
  | some max =>
      if contains_matched.length > max then
        st := pushErr st
          (mkError br s.loc (some ⟨"maxContains", none⟩) vloc
            (.maxContains contains_matched max))
  | none => pure ()
  return st

/-- The `Validator::arr_validate` pass over an array instance.  Note
that the schema-valued `additionalItems` and the 2020 `items` loops
enumerate the suffix slice `arr[evaluated..]`, so the instance-location
token they record is the slice-relative index, exactly as in the
source. -/
def arr_validate (s : Schema) (br : Bool) (arr : List Value)
    (vloc : List InstToken) (vv : VV) (st0 : VState) : Option VState := do
  let mut st := st0
  let mkE := fun (kw : Option KeywordPath) (kind : ErrorKind) => mkError br s.loc kw vloc kind
  -- minItems --
  match s.min_items with
  | some min =>
      if arr.length < min then
        st := pushErr st (mkE (some ⟨"minItems", none⟩) (.minItems arr.length min))
  | none => pure ()
  -- maxItems --
  match s.max_items with
  | some max =>
      if arr.length > max then
        st := pushErr st (mkE (some ⟨"maxItems", none⟩) (.maxItems arr.length max))
  | none => pure ()
  -- uniqueItems --
  if s.unique_items then
    match first_dup arr with
    | some ji => st := pushErr st (mkE (some ⟨"uniqueItems", none⟩) (.uniqueItems ji.1 ji.2))
    | none => pure ()
  if s.draft_version < 2020 then
    let mut evaluated := 0
    -- items --
    match s.items with
    | some (.schemaRef sch) =>
        for p in arr.enum do
          match (← vv sch p.2 (vloc ++ [.item p.1])) with
          | .error e => st := pushErr st e
          | .ok _ => pure ()
        evaluated := arr.length
    | some (.schemaRefs list) =>
        for p in (arr.zip list).enum do
          st := removeItem st p.1
          match (← vv p.2.2 p.2.1 (vloc ++ [.item p.1])) with
          | .error e => st := pushErr st e
          | .ok _ => pure ()
        evaluated := min list.length arr.length
    | none => pure ()
    -- additionalItems --
    match s.additional_items with
    | some (.bool allowed) =>
        if !allowed && evaluated != arr.length then
          st := pushErr st
            (mkE (some ⟨"additionalItems", none⟩) (.additionalItems (arr.length - evaluated)))
    | some (.schemaRef sch) =>
        for p in (arr.drop evaluated).enum do
          match (← vv sch p.2 (vloc ++ [.item p.1])) with
          | .error e => st := pushErr st e
          | .ok _ => pure ()
    | none => pure ()
  else
    -- prefixItems --
    for p in (s.prefix_items.zip arr).enum do
      st := removeItem st p.1
      match (← vv p.2.1 p.2.2 (vloc ++ [.item p.1])) with
      | .error e => st := pushErr st e
      | .ok _ => pure ()
    -- items2020 --
    match s.items2020 with
    | some sch =>
        let evaluated := min s.prefix_items.length arr.length
        for p in (arr.drop evaluated).enum do
          match (← vv sch p.2 (vloc ++ [.item p.1])) with
          | .error e => st := pushErr st e
          | .ok _ => pure ()
    | none => pure ()
  contains_section s br vv arr vloc st

/-- The `Validator::str_validate` pass over a string instance
(`pattern` and the content keywords are not modelled, see the
header). -/
def str_validate (s : Schema) (br : Bool) (str : String)
    (vloc : List InstToken) (st0 : VState) : VState :=
  let len := str.length
  let mkE := fun (kw : Option KeywordPath) (kind : ErrorKind) => mkError br s.loc kw vloc kind
  let st := st0
  let st :=
    match s.min_length with
    | some min => if len < min then pushErr st (mkE (some ⟨"minLength", none⟩) (.minLength len min)) else st
    | none => st
  let st :=
    match s.max_length with
    | some max => if len > max then pushErr st (mkE (some ⟨"maxLength", none⟩) (.maxLength len max)) else st
    | none => st
  st

/-- The `Validator::num_validate` pass over a number instance.  Every
comparison goes through `to_f64`, as `Number::as_f64` does in the
source; the `multipleOf` test is the source's
`(numf / mulf).fract() != 0.0`, modelled by `div_fract_nonzero` on the
two converted values. -/
def num_validate (s : Schema) (br : Bool) (num : Int)
    (vloc : List InstToken) (st0 : VState) : VState :=
  let numf := to_f64 num
  let mkE := fun (kw : Option KeywordPath) (kind : ErrorKind) => mkError br s.loc kw vloc kind
  let st := st0
  let st :=
    match s.minimum with
    | some min => if numf < to_f64 min then pushErr st (mkE (some ⟨"minimum", none⟩) (.minimum num min)) else st
    | none => st
  let st :=
    match s.maximum with
    | some max => if numf > to_f64 max then pushErr st (mkE (some ⟨"maximum", none⟩) (.maximum num max)) else st
    | none => st
  let st :=
    match s.exclusive_minimum with
    | some ex_min => if numf ≤ to_f64 ex_min then pushErr st (mkE (some ⟨"exclusiveMinimum", none⟩) (.exclusiveMinimum num ex_min)) else st
    | none => st
  let st :=
    match s.exclusive_maximum with
    | some ex_max => if numf ≥ to_f64 ex_max then pushErr st (mkE (some ⟨"exclusiveMaximum", none⟩) (.exclusiveMaximum num ex_max)) else st
    | none => st
  let st :=
    match s.multiple_of with
    | some mul =>
        if div_fract_nonzero numf (to_f64 mul) then
          pushErr st (mkE (some ⟨"multipleOf", none⟩) (.multipleOf num mul))
        else st
    | none => st
  st

/-- The `Validator::validate_ref` wrapper: run the reference target via
`_validate_self`; on failure wrap the error in a `Reference` node,
splicing a `Group`'s causes. -/
def validate_ref_wrap (g : Schemas) (s : Schema) (br : Bool) (vloc : List InstToken)
    (vs : VS) (st : VState) (sch : Nat) (kw : String) :
    Option (VState × Except ValidationError Unit) := do
  let (st', r) ← vs st sch (some kw) false
  match r with
  | .ok _ => return (st', .ok ())
  | .error err =>
      let url := (g.get sch).loc
      let ref_err := mkError br s.loc (some ⟨kw, none⟩) vloc (.reference url)
      let ref_err :=
        if err.kind.isGroup then { ref_err with causes := err.causes }
        else { ref_err with causes := [err] }
      return (st', .error ref_err)

/-- The `Validator::resolve_recursive_anchor` walk: among the frames of
the scope chain whose resource root carries `recursive_anchor`, pick
the outermost one. -/
def resolve_recursive_anchor (g : Schemas) (scope : List Frame) : Option Nat :=
  scope.foldl
    (fun acc f =>
      let scope_sch := g.get f.sch
      let base_sch := g.get scope_sch.resource
      if base_sch.recursive_anchor then some f.sch else acc)
    none

/-- The `Validator::resolve_dynamic_anchor` walk: among the scope
frames whose resource root exposes a dynamic anchor of the given name,
pick the outermost one's target. -/
def resolve_dynamic_anchor (g : Schemas) (name : String) (scope : List Frame) : Option Nat :=
  scope.foldl
    (fun acc f =>
      let base_sch := g.get (g.get f.sch).resource
      match base_sch.dynamic_anchors.find? (fun p => p.1 == name) with
      | some p => some p.2
      | none => acc)
    none

/-- The `Validator::refs_validate` step (`$recursiveRef` and
`$dynamicRef`, dialect 2019 and later). -/
def refs_validate (g : Schemas) (s : Schema) (br : Bool) (scope : List Frame)
    (vloc : List InstToken) (vs : VS) (st0 : VState) : Option VState := do
  let mut st := st0
  -- recursiveRef --
  match s.recursive_ref with
  | some sch0 =>
      let sch := if (g.get sch0).recursive_anchor then (resolve_recursive_anchor g scope).getD sch0 else sch0
      let (st', r) ← validate_ref_wrap g s br vloc vs st sch "$recursiveRef"
      st := st'
      match r with
      | .error e => st := pushErr st e
      | .ok _ => pure ()
  | none => pure ()
  -- dynamicRef --
  match s.dynamic_ref with
  | some dref =>
      let mut sch := dref.sch
      match dref.anchor with
      | some anchor =>
          if (g.get dref.sch).dynamic_anchor == dref.anchor then
            sch := (resolve_dynamic_anchor g anchor scope).getD sch
      | none => pure ()
      let (st', r) ← validate_ref_wrap g s br vloc vs st sch "$dynamicRef"
      st := st'
      match r with
      | .error e => st := pushErr st e
      | .ok _ => pure ()
  | none => pure ()
  return st

/-- The `oneOf` probing loop of `Validator::cond_validate`: branches
are probed in order; failures before the first match are collected;
each match after the first immediately reports the pair of the first
match's index and the current index. -/
def one_of_loop (vs : VS) (mkE : ErrorKind → ValidationError) :
    List Nat → Nat → VState → Option Nat → List ValidationError →
    Option (VState × Option Nat × List ValidationError)
  | [], _, st, matched, errs => some (st, matched, errs)
  | sch :: rest, i, st, matched, errs =>
      match vs st sch none matched.isSome with
      | none => none
      | some (st', .error e) =>
          one_of_loop vs mkE rest (i + 1) st' matched
            (if matched.isNone then errs ++ [e] else errs)
      | some (st', .ok _) =>
          match matched with
          | none => one_of_loop vs mkE rest (i + 1) st' (some i) errs
          | some prev =>
              one_of_loop vs mkE rest (i + 1)
                (pushErr st' (mkE (.oneOf (some (prev, i))))) (some prev) errs

/-- The `Validator::cond_validate` step (`not`, `allOf`, `anyOf`,
`oneOf`, `if`/`then`/`else`). -/
def cond_validate (s : Schema) (br : Bool) (vloc : List InstToken)
    (vs : VS) (st0 : VState) : Option VState := do
  let mut st := st0
  let mkE := fun (kw : Option KeywordPath) (kind : ErrorKind) => mkError br s.loc kw vloc kind
  -- not --
  match s.not_ with
  | some notIdx =>
      let (st', r) ← vs st notIdx none true
      st := st'
      match r with
      | .ok _ => st := pushErr st (mkE (some ⟨"not", none⟩) .notErr)
      | .error _ => pure ()
  | none => pure ()
  -- allOf --
  if !s.all_of.isEmpty then
    let mut allof_errors : List ValidationError := []
    for sch in s.all_of do
      let (st', r) ← vs st sch none false
      st := st'
      match r with
      | .error e =>
          allof_errors := allof_errors ++ [e]
          if br then break
      | .ok _ => pure ()
    if !allof_errors.isEmpty then
      st := add_errors br s.loc st allof_errors (some ⟨"allOf", none⟩) vloc .allOf
  -- anyOf --
  if !s.any_of.isEmpty then
    let mut matched := false
    let mut anyof_errors : List ValidationError := []
    for sch in s.any_of do
      let (st', r) ← vs st sch none false
      st := st'
      match r with
      | .ok _ =>
          matched := true
          if st.uneval.is_empty then break
      | .error e => anyof_errors := anyof_errors ++ [e]
    if !matched then
      st := add_errors br s.loc st anyof_errors (some ⟨"anyOf", none⟩) vloc .anyOf
  -- oneOf --
  if !s.one_of.isEmpty then
    let r ← one_of_loop vs (fun k => mkE (some ⟨"oneOf", none⟩) k) s.one_of 0 st none []
    st := r.1
    if r.2.1.isNone then
      st := add_errors br s.loc st r.2.2 (some ⟨"oneOf", none⟩) vloc (.oneOf none)
  -- if then else --
  match s.if_ with
  | some ifIdx =>
      let (st', r) ← vs st ifIdx none true
      st := st'
      match r with
      | .ok _ =>
          match s.then_ with
          | some thenIdx =>
              let (st2, r2) ← vs st thenIdx none false
              st := st2
              match r2 with
              | .error e => st := pushErr st e
              | .ok _ => pure ()
          | none => pure ()
      | .error _ =>
          match s.else_ with
          | some elseIdx =>
              let (st2, r2) ← vs st elseIdx none false
              st := st2
              match r2 with
              | .error e => st := pushErr st e
              | .ok _ => pure ()
          | none => pure ()
  | none => pure ()
  return st

/-- The `Validator::uneval_validate` step (`unevaluatedProperties` and
`unevaluatedItems`, dialect 2019 and later). -/
def uneval_validate (s : Schema) (v : Value) (vloc : List InstToken)
    (vv : VV) (st0 : VState) : Option VState := do
  let mut st := st0
  -- unevaluatedProperties --
  match s.unevaluated_properties, v with
  | some sch, .obj fl =>
      for pname in st.uneval.props do
        match fl.get? pname with
        | some pvalue =>
            match (← vv sch pvalue (vloc ++ [.prop pname])) with
            | .error e => st := pushErr st e
            | .ok _ => pure ()
        | none => pure ()
      st := { st with uneval := { st.uneval with props := [] } }
  | _, _ => pure ()
  -- unevaluatedItems --
  match s.unevaluated_items, v with
  | some sch, .arr a =>
      for i in st.uneval.items do
        match a.toList.get? i with
        | some pvalue =>
            match (← vv sch pvalue (vloc ++ [.item i])) with
            | .error e => st := pushErr st e
            | .ok _ => pure ()
        | none => pure ()
      st := { st with uneval := { st.uneval with items := [] } }
  | _, _ => pure ()
  return st

/-- The recursive node visit `Validator::validate`, with explicit fuel
(one unit per visit; `none` means the fuel ran out).  `cur` is the
current scope frame, `parents` its ancestors, `caller_needs` the flag
feeding `Uneval::from`, `br` the `bool_result` mode. -/
def validate (g : Schemas) :
    Nat → Value → Frame → List Frame → Bool → Bool → List InstToken →
    Option (Except ValidationError Uneval)
  | 0, _, _, _, _, _, _ => none
  | fuel + 1, v, cur, parents, caller_needs, br, vloc => do
      let s := g.get cur.sch
      let uneval0 := Uneval.ofVal v s caller_needs
      -- boolean --
      match s.boolean with
      | some false => return .error (mkError br s.loc none vloc .falseSchema)
      | some true => return .ok uneval0
      | none => pure ()
      -- cycle guard --
      match check_cycle cur parents with
      | some scp =>
          return .error (mkError br s.loc none vloc
            (.refCycle s.loc (kw_loc g (cur :: parents)) (kw_loc g scp)))
      | none => pure ()
      -- type --
      if !s.types.isEmpty then
        let v_type := JType.of v
        let matched := s.types.contains v_type || (s.types.contains .integer && is_integer v)
        if !matched then
          return .error (mkError br s.loc (some ⟨"type", none⟩) vloc (.typeMismatch v_type s.types))
      -- enum --
      match s.enum_ with
      | some en =>
          if !(en.types.contains (JType.of v)) || !(en.values.any (fun e => Value.beq e v)) then
            return .error (mkError br s.loc (some ⟨"enum", none⟩) vloc (.enumErr v en.values))
      | none => pure ()
      -- const --
      match s.constant with
      | some c =>
          if !(Value.beq v c) then
            return .error (mkError br s.loc (some ⟨"const", none⟩) vloc (.constErr v c))
      | none => pure ()
      -- sub-validation callbacks, at the decremented fuel --
      let vv : VV := fun sch v' vloc' =>
        (validate g fuel v' ⟨sch, none, cur.vid + 1⟩ (cur :: parents) false br vloc').map
          (fun r => r.map (fun _ => ()))
      let vs : VS := fun stc sch ref_kw brArg =>
        match validate g fuel v ⟨sch, ref_kw, cur.vid⟩ (cur :: parents)
            (!stc.uneval.is_empty) (br || brArg) vloc with
        | none => none
        | some (.ok reply) => some ({ stc with uneval := stc.uneval.merge reply }, .ok ())
        | some (.error e) => some (stc, .error e)
      let mut st : VState := ⟨uneval0, []⟩
      -- the ref keyword --
      match s.ref_ with
      | some ref_idx =>
          let (st', r) ← validate_ref_wrap g s br vloc vs st ref_idx "$ref"
          st := st'
          if s.draft_version < 2019 then
            match r with
            | .ok _ => return .ok st.uneval
            | .error e => return .error e
          else
            match r with
            | .error e => st := pushErr st e
            | .ok _ => pure ()
      | none => pure ()
      -- format: not modelled --
      -- type-specific assertions --
      match v with
      | .obj fl => st := (← obj_validate s br fl.toList vloc vv vs st)
      | .arr a => st := (← arr_validate s br a.toList vloc vv st)
      | .str str => st := str_validate s br str vloc st
      | .num n => st := num_validate s br n vloc st
      | _ => pure ()
      if !br || st.errors.isEmpty then
        if s.draft_version ≥ 2019 then
          st := (← refs_validate g s br (cur :: parents) vloc vs st)
        st := (← cond_validate s br vloc vs st)
        if s.draft_version ≥ 2019 && st.errors.isEmpty then
          st := (← uneval_validate s v vloc vv st)
      match st.errors with
      | [] => return .ok st.uneval
      | [e] => return .error e
      | _ => return .error { mkError br s.loc none vloc .group with causes := st.errors }

/-- The crate-level `validate` entry point (validator.rs lines 35-74,
reached from `Schemas::validate`): run the root visit with a fresh
scope and wrap any failure in a root `Schema`-kind error with an empty
instance location, splicing a `Group`'s causes directly into it. -/
def validateStart (g : Schemas) (v : Value) (sch_index : Nat) (fuel : Nat) :
    Option (Except ValidationError Unit) :=
  let schema := g.get sch_index
  match validate g fuel v ⟨schema.idx, none, 0⟩ [] false false [] with
  | none => none
  | some (.ok _) => some (.ok ())
  | some (.error err) =>
      some (.error
        { schemaUrl := schema.loc, keywordPath := none, instanceLocation := [],
          kind := .schemaErr schema.loc,
          causes := if err.kind.isGroup then err.causes else [err] })

/-- Modelled from the spec: `util::escape`, the JSON-pointer token
escaping used when canonical locations are built (tilde to `~0`, slash
to `~1`). -/
def escapeToken (s : String) : String :=
  String.mk (s.data.foldr
    (fun c acc =>
      if c == '~' then '~' :: '0' :: acc
      else if c == '/' then '~' :: '1' :: acc
      else c :: acc)
    [])

/-- Unescape one JSON-pointer token (`~0` to tilde, `~1` to slash); a
dangling or unknown escape makes the pointer ill-formed. -/
def unescapeToken : List Char → Option (List Char)
  | [] => some []
  | '~' :: '0' :: rest => (unescapeToken rest).map (fun r => '~' :: r)
  | '~' :: '1' :: rest => (unescapeToken rest).map (fun r => '/' :: r)
  | '~' :: _ => none
  | c :: rest => (unescapeToken rest).map (fun r => c :: r)

/-- Split a character list on slashes. -/
def splitSlash : List Char → List (List Char)
  | [] => [[]]
  | '/' :: rest => [] :: splitSlash rest
  | c :: rest =>
      match splitSlash rest with
      | t :: ts => (c :: t) :: ts
      | [] => [[c]]

/-- Split a location at its first hash into url and fragment. -/
def splitHash : List Char → List Char × List Char
  | [] => ([], [])
  | '#' :: rest => ([], rest)
  | c :: rest =>
      let (a, b) := splitHash rest
      (c :: a, b)

/-- Modelled from the spec: `util::split`, separating a location string
into its url and its fragment. -/
def splitLoc (loc : String) : String × String :=
  let (a, b) := splitHash loc.data
  (String.mk a, String.mk b)

/-- Parse a decimal numeric pointer token. -/
def strToNat? (s : String) : Option Nat :=
  if s.data.isEmpty then none
  else if s.data.all (fun c => '0' ≤ c && c ≤ '9') then
    some (s.data.foldl (fun acc c => acc * 10 + (c.toNat - '0'.toNat)) 0)
  else none

/-- Standards-conformant JSON-pointer traversal: objects by key,
arrays by numeric token. -/
def ptrWalk : Value → List String → Option Value
  | v, [] => some v
  | .obj fl, t :: rest =>
      match fl.get? t with
      | some v => ptrWalk v rest
      | none => none
  | .arr a, t :: rest =>
      match strToNat? t with
      | some i =>
          match a.toList.get? i with
          | some v => ptrWalk v rest
          | none => none
      | none => none
  | _, _ => none

/-- Modelled from the spec (section 4.4): `Root::lookup_ptr`.  An empty
fragment is the whole document, a fragment starting with a slash is a
JSON pointer (`Except.error` on an ill-formed token, `Ok none` when it
resolves to nothing).  Plain-name anchor fragments are not modelled
(no modelled document declares anchors) and resolve to nothing. -/
def lookup_ptr (doc : Value) (ptr : String) : Except Unit (Option Value) :=
  if ptr == "" then .ok (some doc)
  else
    match ptr.data with
    | '/' :: _ =>
        let raw := (splitSlash ptr.data).drop 1
        match raw.mapM unescapeToken with
        | none => .error ()
        | some toks => .ok (ptrWalk doc (toks.map String.mk))
    | _ => .ok none

/-- Modelled from the spec: url joining as used for `$ref` resolution.
A fragment-only reference replaces the base's fragment; anything else
is taken as an absolute url (relative path resolution is not needed by
any modelled document). -/
def url_join (base ref : String) : String :=
  match ref.data with
  | '#' :: _ => String.mk (splitHash base.data).1 ++ ref
  | _ => ref

/-- A loaded document (spec data model `Root`): its base url, raw JSON
and owning draft version.  Embedded resources and anchors are not
modelled (no modelled document declares an identifier). -/
structure Root where
  url : String
  doc : Value
  draft_version : Nat

/-- Modelled from the spec (section 4.3): the `Roots` catalog with its
documents pre-loaded. -/
structure Roots where
  list : List Root

/-- Catalog lookup by absolute url. -/
def Roots.get? (env : Roots) (url : String) : Option Root :=
  env.list.find? (fun r => r.url == url)

/-- Compile failure modes (`CompileError`).  The source's `compile`
also constructs a `NotFound` value (absent from the declared enum);
it is modelled as its own variant. -/
inductive CompileError where
  | parseUrlError (url : String)
  | loadUrlError (url : String)
  | unsupportedUrl (url : String)
  | invalidMetaSchema (url : String)
  | metaSchemaCycle (url : String)
  | invalidId (loc : String)
  | duplicateId (url : String) (id : String)
  | invalidJsonPointer (loc : String)
  | urlFragmentNotFound (loc : String)
  | notFound (loc : String)
  | bug (msg : String)
deriving DecidableEq, Repr

/-- The `load_schema` helper of `Compiler::compile_one`: when the
keyword is present (with any value) enqueue its canonical location. -/
def load_schema (fl : List (String × Value)) (loc : String) (pname : String)
    (r : RState) : Option Nat × RState :=
  if (fl.find? (fun p => p.1 == pname)).isSome then
    let (i, r) := r.enqueue (loc ++ "/" ++ escapeToken pname)
    (some i, r)
  else (none, r)

/-- The `load_schema_arr` helper: enqueue every element location of an
array-valued keyword. -/
def load_schema_arr (fl : List (String × Value)) (loc : String) (pname : String)
    (r : RState) : List Nat × RState :=
  match ((fl.find? (fun p => p.1 == pname)).map (fun p => p.2) : Option Value) with
  | some (.arr a) =>
      (List.range a.toList.length).foldl
        (fun acc i =>
          let (idx, r) := acc.2.enqueue (loc ++ "/" ++ pname ++ "/" ++ toString i)
          (acc.1 ++ [idx], r))
        ([], r)
  | _ => ([], r)

/-- The `load_schema_map` helper: enqueue every member location of an
object-valued keyword, in map order. -/
def load_schema_map (fl : List (String × Value)) (loc : String) (pname : String)
    (r : RState) : List (String × Nat) × RState :=
  match ((fl.find? (fun p => p.1 == pname)).map (fun p => p.2) : Option Value) with
  | some (.obj o) =>
      o.toList.foldl
        (fun acc kv =>
          let (idx, r) := acc.2.enqueue (loc ++ "/" ++ pname ++ "/" ++ escapeToken kv.1)
          (acc.1 ++ [(kv.1, idx)], r))
        ([], r)
  | _ => ([], r)

/-- Keyword lowering of `Compiler::compile_one` past the `$ref`
check: every keyword after the source's early return (the
regex-dependent keywords `pattern` and `patternProperties` are not
modelled, see the header). -/
def compile_obj_rest (r0 : RState) (fl : List (String × Value)) (loc : String)
    (root : Root) (sInit : Schema) : Schema × RState := Id.run do
  let mut r := r0
  let mut s := sInit
  let get : String → Option Value := fun p => (fl.find? (fun kv => kv.1 == p)).map (fun kv => kv.2)
  let load_usize := fun (p : String) =>
    match get p with
    | some (.num n) => if 0 ≤ n then some n.toNat else none
    | _ => none
  let load_num := fun (p : String) =>
    match get p with
    | some (.num n) => some n
    | _ => none
  let to_strings := fun (v : Value) =>
    match v with
    | .arr a => a.toList.filterMap (fun t => match t with | .str t => some t | _ => none)
    | _ => []
  -- type --
  match get "type" with
  | some (.str t) => s := { s with types := s.types ++ (JType.fromStr t).toList }
  | some (.arr tt) =>
      s := { s with types := s.types ++
        tt.toList.filterMap (fun t => match t with | .str t => JType.fromStr t | _ => none) }
  | _ => pure ()
  -- enum --
  match get "enum" with
  | some (.arr e) => s := { s with enum_ := some ⟨e.toList.map JType.of, e.toList⟩ }
  | _ => pure ()
  -- minimum and the draft4 exclusiveMinimum flag --
  s := { s with minimum := load_num "minimum" }
  match get "exclusiveMinimum" with
  | some (.bool exclusive) =>
      if exclusive then
        s := { s with minimum := none, exclusive_minimum := s.minimum }
  | _ => s := { s with exclusive_minimum := load_num "exclusiveMinimum" }
  -- maximum and the draft4 exclusiveMaximum flag --
  s := { s with maximum := load_num "maximum" }
  match get "exclusiveMaximum" with
  | some (.bool exclusive) =>
      if exclusive then
        s := { s with maximum := none, exclusive_maximum := s.maximum }
  | _ => s := { s with exclusive_maximum := load_num "exclusiveMaximum" }
  s := { s with multiple_of := load_num "multipleOf" }
  s := { s with min_properties := load_usize "minProperties",
                max_properties := load_usize "maxProperties" }
  match get "required" with
  | some req => s := { s with required := to_strings req }
  | none => pure ()
  s := { s with min_items := load_usize "minItems", max_items := load_usize "maxItems" }
  match get "uniqueItems" with
  | some (.bool unique) => s := { s with unique_items := unique }
  | _ => pure ()
  s := { s with min_length := load_usize "minLength", max_length := load_usize "maxLength" }
  -- pattern: regex engine not modelled --
  -- not, allOf, anyOf, oneOf, properties --
  let (rNot, r1) := load_schema fl loc "not" r
  r := r1
  s := { s with not_ := rNot }
  let (lAll, r2) := load_schema_arr fl loc "allOf" r
  r := r2
  s := { s with all_of := lAll }
  let (lAny, r3) := load_schema_arr fl loc "anyOf" r
  r := r3
  s := { s with any_of := lAny }
  let (lOne, r4) := load_schema_arr fl loc "oneOf" r
  r := r4
  s := { s with one_of := lOne }
  let (mProps, r5) := load_schema_map fl loc "properties" r
  r := r5
  s := { s with properties := mProps }
  -- patternProperties: regex engine not modelled --
  -- additionalProperties --
  match get "additionalProperties" with
  | some (.bool b) => s := { s with additional_properties := some (.bool b) }
  | _ =>
      let (rp, r') := load_schema fl loc "additionalProperties" r
      r := r'
      s := { s with additional_properties := rp.map .schemaRef }
  -- items, pre-2020 --
  if root.draft_version < 2020 then
    match get "items" with
    | some (.arr _) =>
        let (l, r') := load_schema_arr fl loc "items" r
        r := r'
        s := { s with items := some (.schemaRefs l) }
        match get "additionalItems" with
        | some (.bool b) => s := { s with additional_items := some (.bool b) }
        | _ =>
            let (rp, r2') := load_schema fl loc "additionalItems" r
            r := r2'
            s := { s with additional_items := rp.map .schemaRef }
    | _ =>
        let (rp, r') := load_schema fl loc "items" r
        r := r'
        s := { s with items := rp.map .schemaRef }
  -- dependencies --
  match get "dependencies" with
  | some (.obj deps) =>
      for kv in deps.toList do
        match kv.2 with
        | .arr _ =>
            s := { s with dependencies := s.dependencies ++ [(kv.1, .props (to_strings kv.2))] }
        | .obj _ =>
            let (i, r') := r.enqueue (loc ++ "/dependencies/" ++ escapeToken kv.1)
            r := r'
            s := { s with dependencies := s.dependencies ++ [(kv.1, .schemaRef i)] }
        | _ => pure ()
  | _ => pure ()
  -- draft6 --
  if root.draft_version ≥ 6 then
    let (rp, r') := load_schema fl loc "propertyNames" r
    r := r'
    s := { s with property_names := rp }
    let (rc, r2') := load_schema fl loc "contains" r
    r := r2'
    s := { s with contains := rc }
  -- draft7 --
  if root.draft_version ≥ 7 then
    let (rp, r') := load_schema fl loc "if" r
    r := r'
    s := { s with if_ := rp }
    if s.if_.isSome then
      let (rt, rt') := load_schema fl loc "then" r
      r := rt'
      s := { s with then_ := rt }
      let (re, re') := load_schema fl loc "else" r
      r := re'
      s := { s with else_ := re }
  -- draft2019 --
  if root.draft_version ≥ 2019 then
    if s.contains.isSome then
      s := { s with min_contains := load_usize "minContains",
                    max_contains := load_usize "maxContains" }
    let (m, r') := load_schema_map fl loc "dependentSchemas" r
    r := r'
    s := { s with dependent_schemas := m }
    match get "dependentRequired" with
    | some (.obj deps) =>
        for kv in deps.toList do
          s := { s with dependent_required := s.dependent_required ++ [(kv.1, to_strings kv.2)] }
    | _ => pure ()
  -- draft2020 --
  if root.draft_version ≥ 2020 then
    s := { s with contains_marks_evaluated := true }
    let (l, r') := load_schema_arr fl loc "prefixItems" r
    r := r'
    s := { s with prefix_items := l }
    let (rp, r2') := load_schema fl loc "items" r
    r := r2'
    s := { s with items2020 := rp }
  return (s, r)

/-- Keyword lowering of `Compiler::compile_one` for an object-valued
sub-schema: the `$ref` keyword is handled first, with the pre-2019
early return honouring the rule that all sibling keywords of `$ref`
are ignored; the remaining keywords are lowered by
`compile_obj_rest` (`Root::base_url` is modelled as the root's url
since no modelled document embeds resources). -/
def compile_obj (r0 : RState) (fl : List (String × Value)) (loc : String)
    (root : Root) : Schema × RState :=
  let s0 := Schema.new loc root.draft_version
  match ((fl.find? (fun kv => kv.1 == "$ref")).map (fun kv => kv.2) : Option Value) with
  | some (.str ref_) =>
      let abs_ref := url_join root.url ref_
      let (i, r1) := r0.enqueue abs_ref
      let s1 := { s0 with ref_ := some i }
      if root.draft_version < 2019 then
        -- All other properties in a ref object MUST be ignored
        (s1, r1)
      else compile_obj_rest r1 fl loc root s1
  | _ => compile_obj_rest r0 fl loc root s0

/-- The `Compiler::compile_one` lowering: a non-object sub-value
compiles to the empty (accept-everything) node, exactly as in the
source, where the `boolean` fast path is populated elsewhere. -/
def compile_one (r0 : RState) (v : Value) (loc : String) (root : Root) :
    Schema × RState :=
  match v with
  | .obj fields => compile_obj r0 fields.toList loc root
  | _ => (Schema.new loc root.draft_version, r0)

/-- The breadth-first fixpoint of `Compiler::compile`, with fuel: peek
the queue head, resolve it, lower it (which may reserve indices and
grow the queue), pop and insert, remembering the first inserted index.
A location whose url has no pre-loaded root fails as the loader
registry does without a loader (`UnsupportedUrl`). -/
def compileLoop (env : Roots) :
    Nat → Schemas → List String → Option Nat →
    Option (Except CompileError Nat × Schemas)
  | 0, _, _, _ => none
  | fuel + 1, g, queue, sch_index =>
      match queue with
      | [] =>
          match sch_index with
          | some i => some (.ok i, g)
          | none => some (.error (.bug "schema_index must exist"), g)
      | loc :: _ =>
          let (url, ptr) := splitLoc loc
          match env.get? url with
          | none => some (.error (.unsupportedUrl url), g)
          | some root =>
              match lookup_ptr root.doc ptr with
              | .error _ => some (.error (.invalidJsonPointer loc), g)
              | .ok none => some (.error (.notFound loc), g)
              | .ok (some v) =>
                  let (sch, r') := compile_one ⟨g.by_loc, g.next, queue⟩ v loc root
                  let g' : Schemas := { g with by_loc := r'.by_loc, next := r'.next }
                  match r'.queue with
                  | [] => some (.error (.bug "queue must be non-empty"), g')
                  | locHead :: rest =>
                      let (index, g'') := g'.insert locHead sch
                      compileLoop env fuel g'' rest
                        (match sch_index with
                         | some i => some i
                         | none => some index)

/-- The public `Compiler::compile` operation: ensure the fragment
separator, then run the breadth-first loop on a singleton queue. -/
def compile (env : Roots) (g : Schemas) (loc : String) (fuel : Nat) :
    Option (Except CompileError Nat × Schemas) :=
  let loc := if loc.data.contains '#' then loc else loc ++ "#"
  compileLoop env fuel g [loc] none

/-!  Analysis helpers used by the theorems below (not part of the
embedding). -/

/-- Whether a validation run succeeded. -/
def isOkR : Option (Except ValidationError Unit) → Bool
  | some (.ok _) => true
  | _ => false

/-- Depth-bounded scan of an error tree for a kind satisfying `p`. -/
def errHasKind (p : ErrorKind → Bool) : Nat → ValidationError → Bool
  | 0, _ => false
  | d + 1, e => p e.kind || e.causes.any (errHasKind p d)

/-- Scan a run result's error tree for a kind satisfying `p`. -/
def resHasKind (p : ErrorKind → Bool) (d : Nat) :
    Option (Except ValidationError Unit) → Bool
  | some (.error e) => errHasKind p d e
  | _ => false

/-- Direct causes of a failed run's root error. -/
def errCauses : Option (Except ValidationError Unit) → List ValidationError
  | some (.error e) => e.causes
  | _ => []

/-- Whether an error kind is `RefCycle`. -/
def ErrorKind.isRefCycle : ErrorKind → Bool
  | .refCycle _ _ _ => true
  | _ => false

/-- Whether an error kind is `MaxLength`. -/
def ErrorKind.isMaxLength : ErrorKind → Bool
  | .maxLength _ _ => true
  | _ => false

/-- Whether an error kind is `OneOf(None)`. -/
def ErrorKind.isOneOfNone : ErrorKind → Bool
  | .oneOf none => true
  | _ => false

/-!  Claim C1: atomicity of a failing compile. -/

/-- Inserting a node extends the node list by at most one entry and
never removes or replaces one. -/
theorem insert_nodes_extends (g : Schemas) (loc : String) (sch : Schema) :
    ∃ ext, (g.insert loc sch).2.nodes = g.nodes ++ ext := by
  unfold Schemas.insert
  cases h : g.by_loc.find? (fun p => p.1 == loc) with
  | none => exact ⟨_, rfl⟩
  | some p =>
      by_cases h2 : (g.nodes.find? (fun q => q.1 == p.2)).isSome
      · simp only [h2, if_pos]
        exact ⟨[], by simp⟩
      · simp only [h2, if_neg, Bool.not_eq_true]
        exact ⟨_, rfl⟩

/-- A roots catalog that pre-loads one draft-4 document consisting of a
reference to a pointer that resolves to nothing. -/
def c1env : Roots :=
  ⟨[⟨"http://a.com/s", .obj (.cons "$ref" (.str "#/nope") .nil), 4⟩]⟩

/-- The store left behind by the failing compile of `c1env`. -/
def c1g : Schemas :=
  (compile c1env Schemas.empty "http://a.com/s" 10).elim Schemas.empty (fun r => r.2)

/-- Claim C1, counterexample: compiling `c1env`'s document fails with
`NotFound` on the second queue entry, yet the target store, empty
before the call, now holds the node compiled in the first iteration,
observable through `get` at index 1 — the failing call did not leave
the store exactly as it was. -/
theorem c1_counterexample :
    (compile c1env Schemas.empty "http://a.com/s" 10).map
        (fun r => (r.1, r.2.nodes.length, (r.2.get 1).loc, (r.2.get 1).ref_))
      = some (.error (.notFound "http://a.com/s#/nope"), 1, "http://a.com/s#", some 0)
    ∧ Schemas.empty.nodes.length = 0 := by
  exact ⟨rfl, rfl⟩

/-- Claim C1, amended: a failing compile is not rolled back.  The
breadth-first loop only ever appends fully-lowered nodes to the target
store, so after any compile call — failed or not — the store's node
list is the original list extended by the nodes inserted before the
failure (the counterexample shows the extension can be non-empty). -/
theorem c1_amended :
    ∀ (env : Roots) (fuel : Nat) (g : Schemas) (queue : List String)
      (si : Option Nat) (res : Except CompileError Nat) (g' : Schemas),
      compileLoop env fuel g queue si = some (res, g') →
      ∃ ext, g'.nodes = g.nodes ++ ext := by
  intro env fuel
  induction fuel with
  | zero =>
      intro g queue si res g' h
      simp [compileLoop] at h
  | succ n ih =>
      intro g queue si res g' h
      rw [compileLoop.eq_def] at h
      cases queue with
      | nil =>
          cases si with
          | some i =>
              simp only [Option.some.injEq, Prod.mk.injEq] at h
              exact ⟨[], by rw [← h.2]; simp⟩
          | none =>
              simp only [Option.some.injEq, Prod.mk.injEq] at h
              exact ⟨[], by rw [← h.2]; simp⟩
      | cons loc rest0 =>
          dsimp only at h
          cases hsp : splitLoc loc with
          | mk url ptr =>
              rw [hsp] at h
              dsimp only at h
              cases henv : env.get? url with
              | none =>
                  rw [henv] at h
                  simp only [Option.some.injEq, Prod.mk.injEq] at h
                  exact ⟨[], by rw [← h.2]; simp⟩
              | some root =>
                  rw [henv] at h
                  dsimp only at h
                  cases hlp : lookup_ptr root.doc ptr with
                  | error e =>
                      rw [hlp] at h
                      simp only [Option.some.injEq, Prod.mk.injEq] at h
                      exact ⟨[], by rw [← h.2]; simp⟩
                  | ok o =>
                      rw [hlp] at h
                      cases o with
                      | none =>
                          simp only [Option.some.injEq, Prod.mk.injEq] at h
                          exact ⟨[], by rw [← h.2]; simp⟩
                      | some v =>
                          dsimp only at h
                          cases hco : compile_one ⟨g.by_loc, g.next, loc :: rest0⟩ v loc root with
                          | mk sch r' =>
                              rw [hco] at h
                              dsimp only at h
                              cases hq : r'.queue with
                              | nil =>
                                  rw [hq] at h
                                  simp only [Option.some.injEq, Prod.mk.injEq] at h
                                  exact ⟨[], by rw [← h.2]; simp⟩
                              | cons locHead rest =>
                                  rw [hq] at h
                                  dsimp only at h
                                  cases hins : Schemas.insert
                                      { g with by_loc := r'.by_loc, next := r'.next }
                                      locHead sch with
                                  | mk index g2 =>
                                      rw [hins] at h
                                      dsimp only at h
                                      obtain ⟨ext1, he1⟩ :=
                                        insert_nodes_extends
                                          { g with by_loc := r'.by_loc, next := r'.next }
                                          locHead sch
                                      rw [hins] at he1
                                      obtain ⟨ext2, he2⟩ := ih g2 rest _ res g' h
                                      refine ⟨ext1 ++ ext2, ?_⟩
                                      rw [he2, he1]
                                      simp

/-- Witness for `c1_amended`: the failing compile of `c1env` applied to
the empty store extends its node list. -/
theorem c1_amended_witness : ∃ ext, c1g.nodes = Schemas.empty.nodes ++ ext :=
  c1_amended c1env 10 Schemas.empty ["http://a.com/s#"] none
    (.error (.notFound "http://a.com/s#/nope")) c1g (by rfl)

/-!  Claim C9: instance locations recorded for array elements past the
evaluated prefix. -/

/-- A draft-7 document with a one-schema `items` list and a
schema-valued `additionalItems`. -/
def c9env : Roots :=
  ⟨[⟨"http://a.com/s",
     .obj (.cons "items" (.arr (.cons (.obj (.cons "type" (.str "integer") .nil)) .nil))
       (.cons "additionalItems" (.obj (.cons "type" (.str "boolean") .nil)) .nil)),
     7⟩]⟩

/-- The compiled graph of `c9env` (branches at 0 and 1, root at 2). -/
def c9g : Schemas :=
  (compile c9env Schemas.empty "http://a.com/s" 10).elim Schemas.empty (fun r => r.2)

/-- The failing run of claim C9: the array `[1, 5]` whose element at
index 1 violates the `additionalItems` schema. -/
def c9res : Option (Except ValidationError Unit) :=
  validateStart c9g (.arr (.cons (.num 1) (.cons (.num 5) .nil))) 2 5

/-- Claim C9, behaviour at the failing input: the element at array
index 1, checked by the schema-valued `additionalItems`, produces a
type error whose instance location is `/0` — the slice-relative index —
not `/1` as the claim (and the spec's instance-location contract)
requires.  The error's keyword location correctly points into the
`additionalItems` subschema, confirming which element was checked. -/
theorem c9_bug_eval :
    (errCauses c9res).map (fun c => (c.schemaUrl, c.instanceLocation))
        = [("http://a.com/s#/additionalItems", [InstToken.item 0])]
    ∧ [InstToken.item 0] ≠ [InstToken.item 1] := by
  refine ⟨rfl, by decide⟩

/-!  Claim C6: the draft-4 boolean `exclusiveMinimum` /
`exclusiveMaximum` forms against their standalone draft-6 numeric
forms, compiled at the same canonical location so the two nodes differ
only in their assertion fields and draft version. -/

/-- Root set: draft-4 document with `minimum 0` and the boolean
`exclusiveMinimum` flag set. -/
def c6envMin4 : Roots :=
  ⟨[⟨"http://a.com/s",
     .obj (.cons "minimum" (.num 0) (.cons "exclusiveMinimum" (.bool true) .nil)), 4⟩]⟩

/-- Root set: draft-6 document with the standalone numeric
`exclusiveMinimum`. -/
def c6envMin6 : Roots :=
  ⟨[⟨"http://a.com/s", .obj (.cons "exclusiveMinimum" (.num 0) .nil), 6⟩]⟩

/-- Root set: draft-4 document with `maximum 0` and the boolean
`exclusiveMaximum` flag set. -/
def c6envMax4 : Roots :=
  ⟨[⟨"http://a.com/s",
     .obj (.cons "maximum" (.num 0) (.cons "exclusiveMaximum" (.bool true) .nil)), 4⟩]⟩

/-- Root set: draft-6 document with the standalone numeric
`exclusiveMaximum`. -/
def c6envMax6 : Roots :=
  ⟨[⟨"http://a.com/s", .obj (.cons "exclusiveMaximum" (.num 0) .nil), 6⟩]⟩

/-- The graph `compile` produces for `c6envMin4`, written out as a
literal store (the first conjunct of `c6_claim` proves it is exactly
the compile result): one node, the bound moved into the exclusive
slot. -/
def c6gMin4 : Schemas :=
  ⟨[("http://a.com/s#", 0)],
   [(0, { Schema.new "http://a.com/s#" 4 with idx := 0, exclusive_minimum := some 0 })], 1⟩

/-- The graph `compile` produces for `c6envMin6`, written out as a
literal store. -/
def c6gMin6 : Schemas :=
  ⟨[("http://a.com/s#", 0)],
   [(0, { Schema.new "http://a.com/s#" 6 with idx := 0, exclusive_minimum := some 0 })], 1⟩

/-- The graph `compile` produces for `c6envMax4`, written out as a
literal store. -/
def c6gMax4 : Schemas :=
  ⟨[("http://a.com/s#", 0)],
   [(0, { Schema.new "http://a.com/s#" 4 with idx := 0, exclusive_maximum := some 0 })], 1⟩

/-- The graph `compile` produces for `c6envMax6`, written out as a
literal store. -/
def c6gMax6 : Schemas :=
  ⟨[("http://a.com/s#", 0)],
   [(0, { Schema.new "http://a.com/s#" 6 with idx := 0, exclusive_maximum := some 0 })], 1⟩

/-- Visiting the compiled draft-4 minimum node on any object instance
succeeds with an empty annotation set: none of the object assertions is
populated, so the per-property loop leaves the state untouched (by
structural recursion on the field list, every step being a definitional
reduction). -/
theorem c6_obj_min4 (n : Nat) : ∀ (flv : VFields),
    validate c6gMin4 (n + 1) (.obj flv) ⟨0, none, 0⟩ [] false false []
      = some (.ok ⟨[], []⟩)
  | .nil => rfl
  | .cons _ _ rest => c6_obj_min4 n rest

/-- As `c6_obj_min4`, for the draft-6 minimum node. -/
theorem c6_obj_min6 (n : Nat) : ∀ (flv : VFields),
    validate c6gMin6 (n + 1) (.obj flv) ⟨0, none, 0⟩ [] false false []
      = some (.ok ⟨[], []⟩)
  | .nil => rfl
  | .cons _ _ rest => c6_obj_min6 n rest

/-- As `c6_obj_min4`, for the draft-4 maximum node. -/
theorem c6_obj_max4 (n : Nat) : ∀ (flv : VFields),
    validate c6gMax4 (n + 1) (.obj flv) ⟨0, none, 0⟩ [] false false []
      = some (.ok ⟨[], []⟩)
  | .nil => rfl
  | .cons _ _ rest => c6_obj_max4 n rest

/-- As `c6_obj_min4`, for the draft-6 maximum node. -/
theorem c6_obj_max6 (n : Nat) : ∀ (flv : VFields),
    validate c6gMax6 (n + 1) (.obj flv) ⟨0, none, 0⟩ [] false false []
      = some (.ok ⟨[], []⟩)
  | .nil => rfl
  | .cons _ _ rest => c6_obj_max6 n rest

/-- Node-level agreement of the two minimum forms on every instance and
any positive fuel: on scalars and arrays both visits reduce to the same
term, and on objects both succeed outright. -/
theorem c6_min_eq (n : Nat) : ∀ (v : Value),
    validate c6gMin4 (n + 1) v ⟨0, none, 0⟩ [] false false []
      = validate c6gMin6 (n + 1) v ⟨0, none, 0⟩ [] false false []
  | .null => rfl
  | .bool _ => rfl
  | .num _ => rfl
  | .str _ => rfl
  | .arr _ => rfl
  | .obj flv => (c6_obj_min4 n flv).trans (c6_obj_min6 n flv).symm

/-- As `c6_min_eq`, for the two maximum forms. -/
theorem c6_max_eq (n : Nat) : ∀ (v : Value),
    validate c6gMax4 (n + 1) v ⟨0, none, 0⟩ [] false false []
      = validate c6gMax6 (n + 1) v ⟨0, none, 0⟩ [] false false []
  | .null => rfl
  | .bool _ => rfl
  | .num _ => rfl
  | .str _ => rfl
  | .arr _ => rfl
  | .obj flv => (c6_obj_max4 n flv).trans (c6_obj_max6 n flv).symm

/-- Claim C6: the four stores really are the compile results of the
four documents (first conjunct), compiling the draft-4 boolean form
moves the bound into the exclusive slot and clears the inclusive one
(the compiled node of `minimum 0, exclusiveMinimum true` has no
`minimum` and `exclusive_minimum 0`, and symmetrically for maximum),
and validation of the draft-4 node agrees with the draft-6 standalone
node on every instance, at every fuel. -/
theorem c6_claim :
    (compile c6envMin4 Schemas.empty "http://a.com/s" 10 = some (.ok 0, c6gMin4)
      ∧ compile c6envMin6 Schemas.empty "http://a.com/s" 10 = some (.ok 0, c6gMin6)
      ∧ compile c6envMax4 Schemas.empty "http://a.com/s" 10 = some (.ok 0, c6gMax4)
      ∧ compile c6envMax6 Schemas.empty "http://a.com/s" 10 = some (.ok 0, c6gMax6))
    ∧ ((c6gMin4.get 0).minimum = none ∧ (c6gMin4.get 0).exclusive_minimum = some 0
      ∧ (c6gMax4.get 0).maximum = none ∧ (c6gMax4.get 0).exclusive_maximum = some 0)
    ∧ (∀ (v : Value) (fuel : Nat),
        validateStart c6gMin4 v 0 fuel = validateStart c6gMin6 v 0 fuel)
    ∧ (∀ (v : Value) (fuel : Nat),
        validateStart c6gMax4 v 0 fuel = validateStart c6gMax6 v 0 fuel) := by
  refine ⟨⟨rfl, rfl, rfl, rfl⟩, ⟨rfl, rfl, rfl, rfl⟩, ?_, ?_⟩
  · intro v fuel
    cases fuel with
    | zero => rfl
    | succ n =>
        have h := c6_min_eq n v
        unfold validateStart
        dsimp only
        rw [show ((c6gMin4.get 0).idx) = 0 from rfl,
            show ((c6gMin6.get 0).idx) = 0 from rfl, h,
            show ((c6gMin4.get 0).loc) = "http://a.com/s#" from rfl,
            show ((c6gMin6.get 0).loc) = "http://a.com/s#" from rfl]
  · intro v fuel
    cases fuel with
    | zero => rfl
    | succ n =>
        have h := c6_max_eq n v
        unfold validateStart
        dsimp only
        rw [show ((c6gMax4.get 0).idx) = 0 from rfl,
            show ((c6gMax6.get 0).idx) = 0 from rfl, h,
            show ((c6gMax4.get 0).loc) = "http://a.com/s#" from rfl,
            show ((c6gMax6.get 0).loc) = "http://a.com/s#" from rfl]

/-!  Claim C7: arbitrary-precision numeric comparisons. -/

/-- A draft-7 document whose `minimum` is 2^53 + 1, not representable
in binary64. -/
def c7env : Roots :=
  ⟨[⟨"http://a.com/s", .obj (.cons "minimum" (.num 9007199254740993) .nil), 7⟩]⟩

/-- The compiled graph of `c7env`. -/
def c7g : Schemas :=
  (compile c7env Schemas.empty "http://a.com/s" 10).elim Schemas.empty (fun r => r.2)

/-- A draft-7 document with `multipleOf 3`. -/
def c7menv : Roots :=
  ⟨[⟨"http://a.com/s", .obj (.cons "multipleOf" (.num 3) .nil), 7⟩]⟩

/-- The compiled graph of `c7menv`. -/
def c7mg : Schemas :=
  (compile c7menv Schemas.empty "http://a.com/s" 10).elim Schemas.empty (fun r => r.2)

/-- Claim C7, counterexample.  Bounds: the instance 2^53 is strictly
below the bound 2^53 + 1, so the exact mathematical comparison rejects
it, yet validation accepts it — both sides are first converted with
`as_f64`, which rounds the bound down to 2^53.  `multipleOf`: 2^60
leaves remainder 1 on division by 3, so the exact test rejects it, yet
validation against `multipleOf 3` accepts it — the f64 quotient exceeds
2^52, where every binary64 value is an integer, so `fract()` is
zero. -/
theorem c7_counterexample :
    (isOkR (validateStart c7g (.num 9007199254740992) 0 5) = true
      ∧ (9007199254740992 : Int) < 9007199254740993)
    ∧ (isOkR (validateStart c7mg (.num 1152921504606846976) 0 5) = true
      ∧ (1152921504606846976 : Int) % 3 = 1) := by
  exact ⟨⟨rfl, by decide⟩, ⟨rfl, by decide⟩⟩

/-- Rounding to binary64 is exact on integers of magnitude at most
2^53. -/
theorem to_f64_exact (n : Int) (h : n.natAbs ≤ 2 ^ 53) : to_f64 n = n := by
  unfold to_f64
  simp [h]
  intro h2
  omega

/-- An exact multiple of a nonzero divisor always has a zero binary64
fractional part: the scaled quotient divides out evenly, so the rounded
mantissa is the exact quotient and the binade factor divides it. -/
theorem div_fract_nonzero_of_dvd (af bf : Int) (hb : bf ≠ 0) (hd : bf ∣ af) :
    div_fract_nonzero af bf = false := by
  have hbn : bf.natAbs ≠ 0 := Int.natAbs_ne_zero.mpr hb
  have hbpos : 0 < bf.natAbs := Nat.pos_of_ne_zero hbn
  obtain ⟨t, ht⟩ := Int.natAbs_dvd_natAbs.mpr hd
  simp only [div_fract_nonzero]
  rw [if_neg (by simp [hbn])]
  by_cases ha : af.natAbs = 0
  · rw [if_pos (by simp [ha])]
  · rw [if_neg (by simp [ha])]
    by_cases h122 : 122 ≤ (List.range 141).foldl
        (fun acc k => if bf.natAbs * 2 ^ k ≤ af.natAbs * 2 ^ 70 then k else acc) 0
    · rw [if_pos h122]
    · rw [if_neg h122]
      set e := (List.range 141).foldl
        (fun acc k => if bf.natAbs * 2 ^ k ≤ af.natAbs * 2 ^ 70 then k else acc) 0 with he
      have hr : af.natAbs * 2 ^ (122 - e) % bf.natAbs = 0 := by
        rw [ht, Nat.mul_assoc, Nat.mul_mod_right]
      have hq : af.natAbs * 2 ^ (122 - e) / bf.natAbs = t * 2 ^ (122 - e) := by
        rw [ht, Nat.mul_assoc, Nat.mul_div_cancel_left _ hbpos]
      rw [hr, if_neg (by omega), if_pos (by omega), hq]
      simp [Nat.mul_mod_left]

/-!  Claim C8: basic-assertion failures and suppression. -/

/-- A draft-7 document whose `enum` and `maxLength` both fail on the
instance `"bb"`. -/
def c8env : Roots :=
  ⟨[⟨"http://a.com/s",
     .obj (.cons "enum" (.arr (.cons (.str "a") .nil)) (.cons "maxLength" (.num 0) .nil)),
     7⟩]⟩

/-- The compiled graph of `c8env`. -/
def c8g : Schemas :=
  (compile c8env Schemas.empty "http://a.com/s" 10).elim Schemas.empty (fun r => r.2)

/-- The failing run of claim C8. -/
def c8res : Option (Except ValidationError Unit) :=
  validateStart c8g (.str "bb") 0 5

/-- Claim C8, counterexample: on `"bb"` both the `enum` and the
`maxLength 0` assertions of the same node fail, but the run reports
only the enum error — no `MaxLength` error appears anywhere in the
returned tree, so the enum failure did suppress the later
assertions. -/
theorem c8_counterexample :
    (errCauses c8res).map (fun c => c.keywordPath) = [some ⟨"enum", none⟩]
    ∧ resHasKind ErrorKind.isMaxLength 5 c8res = false
    ∧ (c8g.get 0).max_length = some 0
    ∧ ("bb".length > 0) := by
  exact ⟨rfl, rfl, rfl, by decide⟩

/-- Claim C7, amended: all numeric assertions go through the binary64
conversion, so they agree with the exact mathematical comparison only
when no precision is lost.  The four bound comparisons agree with the
exact comparison whenever bound and instance are integers of magnitude
at most 2^53 (the first four conjuncts, one per keyword); outside that
range the outcome can differ, as the counterexample shows.  The
`multipleOf` test is the f64 `fract()` of the quotient, not exact
divisibility: it accepts every exact multiple in that range (fifth
conjunct), but it also accepts non-multiples whose quotient leaves the
exact range, as the counterexample shows. -/
theorem c7_amended :
    (∀ (s : Schema) (br : Bool) (num bound : Int) (vloc : List InstToken) (st : VState),
      s.minimum = some bound → s.maximum = none → s.exclusive_minimum = none →
      s.exclusive_maximum = none → s.multiple_of = none →
      bound.natAbs ≤ 2 ^ 53 → num.natAbs ≤ 2 ^ 53 →
      (num_validate s br num vloc st).errors = st.errors ++
        (if num < bound then
          [mkError br s.loc (some ⟨"minimum", none⟩) vloc (.minimum num bound)]
         else []))
    ∧ (∀ (s : Schema) (br : Bool) (num bound : Int) (vloc : List InstToken) (st : VState),
      s.maximum = some bound → s.minimum = none → s.exclusive_minimum = none →
      s.exclusive_maximum = none → s.multiple_of = none →
      bound.natAbs ≤ 2 ^ 53 → num.natAbs ≤ 2 ^ 53 →
      (num_validate s br num vloc st).errors = st.errors ++
        (if num > bound then
          [mkError br s.loc (some ⟨"maximum", none⟩) vloc (.maximum num bound)]
         else []))
    ∧ (∀ (s : Schema) (br : Bool) (num bound : Int) (vloc : List InstToken) (st : VState),
      s.exclusive_minimum = some bound → s.minimum = none → s.maximum = none →
      s.exclusive_maximum = none → s.multiple_of = none →
      bound.natAbs ≤ 2 ^ 53 → num.natAbs ≤ 2 ^ 53 →
      (num_validate s br num vloc st).errors = st.errors ++
        (if num ≤ bound then
          [mkError br s.loc (some ⟨"exclusiveMinimum", none⟩) vloc (.exclusiveMinimum num bound)]
         else []))
    ∧ (∀ (s : Schema) (br : Bool) (num bound : Int) (vloc : List InstToken) (st : VState),
      s.exclusive_maximum = some bound → s.minimum = none → s.maximum = none →
      s.exclusive_minimum = none → s.multiple_of = none →
      bound.natAbs ≤ 2 ^ 53 → num.natAbs ≤ 2 ^ 53 →
      (num_validate s br num vloc st).errors = st.errors ++
        (if num ≥ bound then
          [mkError br s.loc (some ⟨"exclusiveMaximum", none⟩) vloc (.exclusiveMaximum num bound)]
         else []))
    ∧ (∀ (s : Schema) (br : Bool) (num mul : Int) (vloc : List InstToken) (st : VState),
      s.multiple_of = some mul → s.minimum = none → s.maximum = none →
      s.exclusive_minimum = none → s.exclusive_maximum = none →
      mul ≠ 0 → mul ∣ num →
      mul.natAbs ≤ 2 ^ 53 → num.natAbs ≤ 2 ^ 53 →
      (num_validate s br num vloc st).errors = st.errors) := by
  refine ⟨?_, ?_, ?_, ?_, ?_⟩
  · intro s br num bound vloc st hb h1 h2 h3 h4 hbb hnb
    unfold num_validate
    rw [hb, h1, h2, h3, h4]
    dsimp only
    rw [to_f64_exact num hnb, to_f64_exact bound hbb]
    split_ifs with hc <;> simp [pushErr]
  · intro s br num bound vloc st hb h1 h2 h3 h4 hbb hnb
    unfold num_validate
    rw [hb, h1, h2, h3, h4]
    dsimp only
    rw [to_f64_exact num hnb, to_f64_exact bound hbb]
    split_ifs with hc <;> simp [pushErr]
  · intro s br num bound vloc st hb h1 h2 h3 h4 hbb hnb
    unfold num_validate
    rw [hb, h1, h2, h3, h4]
    dsimp only
    rw [to_f64_exact num hnb, to_f64_exact bound hbb]
    split_ifs with hc <;> simp [pushErr]
  · intro s br num bound vloc st hb h1 h2 h3 h4 hbb hnb
    unfold num_validate
    rw [hb, h1, h2, h3, h4]
    dsimp only
    rw [to_f64_exact num hnb, to_f64_exact bound hbb]
    split_ifs with hc <;> simp [pushErr]
  · intro s br num mul vloc st hb h1 h2 h3 h4 hmz hdvd hbb hnb
    unfold num_validate
    rw [hb, h1, h2, h3, h4]
    dsimp only
    rw [to_f64_exact num hnb, to_f64_exact mul hbb,
        div_fract_nonzero_of_dvd num mul hmz hdvd]
    simp

set_option maxHeartbeats 1000000 in
/-- Witness for `c7_amended`: the exact-range characterization applied
to the node with `minimum 5` and the instance 3, and the `multipleOf`
conjunct applied to the node with `multipleOf 3` and the instance 6. -/
theorem c7_amended_witness :
    ((num_validate { Schema.new "u" 4 with minimum := some 5 } false 3 [] ⟨⟨[], []⟩, []⟩).errors
      = [] ++ (if (3 : Int) < 5 then
          [mkError false "u" (some ⟨"minimum", none⟩) [] (.minimum 3 5)]
         else []))
    ∧ (num_validate { Schema.new "u" 4 with multiple_of := some 3 } false 6 []
        ⟨⟨[], []⟩, []⟩).errors = [] :=
  ⟨c7_amended.1 { Schema.new "u" 4 with minimum := some 5 } false 3 5 [] ⟨⟨[], []⟩, []⟩
     rfl rfl rfl rfl rfl (by decide) (by decide),
   c7_amended.2.2.2.2 { Schema.new "u" 4 with multiple_of := some 3 } false 6 3 []
     ⟨⟨[], []⟩, []⟩ rfl rfl rfl rfl rfl (by decide) ⟨2, by decide⟩ (by decide) (by decide)⟩

/-- Claim C8, amended: each basic assertion — `type`, `enum` and
`const` — short-circuits the node visit when it fails: the visit
returns that single error at once (first conjunct `type`, second
`enum`, third `const`), so no later assertion of the node is
evaluated. -/
theorem c8_amended :
    (∀ (g : Schemas) (fuel : Nat) (v : Value) (cur : Frame) (parents : List Frame)
       (cn br : Bool) (vloc : List InstToken),
      (g.get cur.sch).boolean = none →
      check_cycle cur parents = none →
      (g.get cur.sch).types.isEmpty = false →
      ((g.get cur.sch).types.contains (JType.of v)
        || ((g.get cur.sch).types.contains .integer && is_integer v)) = false →
      validate g (fuel + 1) v cur parents cn br vloc
        = some (.error (mkError br (g.get cur.sch).loc (some ⟨"type", none⟩) vloc
            (.typeMismatch (JType.of v) (g.get cur.sch).types))))
    ∧ (∀ (g : Schemas) (fuel : Nat) (v : Value) (cur : Frame) (parents : List Frame)
        (cn br : Bool) (vloc : List InstToken) (en : Enum),
      (g.get cur.sch).boolean = none →
      check_cycle cur parents = none →
      ((g.get cur.sch).types.isEmpty
        || ((g.get cur.sch).types.contains (JType.of v)
             || ((g.get cur.sch).types.contains .integer && is_integer v))) = true →
      (g.get cur.sch).enum_ = some en →
      (en.types.contains (JType.of v) && en.values.any (fun e => Value.beq e v)) = false →
      validate g (fuel + 1) v cur parents cn br vloc
        = some (.error (mkError br (g.get cur.sch).loc (some ⟨"enum", none⟩) vloc
            (.enumErr v en.values))))
    ∧ (∀ (g : Schemas) (fuel : Nat) (v : Value) (cur : Frame) (parents : List Frame)
        (cn br : Bool) (vloc : List InstToken) (c : Value),
      (g.get cur.sch).boolean = none →
      check_cycle cur parents = none →
      ((g.get cur.sch).types.isEmpty
        || ((g.get cur.sch).types.contains (JType.of v)
             || ((g.get cur.sch).types.contains .integer && is_integer v))) = true →
      (g.get cur.sch).enum_ = none →
      (g.get cur.sch).constant = some c →
      Value.beq v c = false →
      validate g (fuel + 1) v cur parents cn br vloc
        = some (.error (mkError br (g.get cur.sch).loc (some ⟨"const", none⟩) vloc
            (.constErr v c)))) := by
  refine ⟨?_, ?_, ?_⟩
  · intro g fuel v cur parents cn br vloc hbool hcyc hne hmatch
    rw [validate]
    simp only [hbool, hcyc]
    simp [hne, hmatch]
  · intro g fuel v cur parents cn br vloc en hbool hcyc hty hen hfail
    rw [validate]
    simp only [hbool, hcyc, hen]
    by_cases hempty : (g.get cur.sch).types.isEmpty
    · rcases Bool.and_eq_false_iff.mp hfail with hf | hf <;> simp [hempty, hf]
    · have hty' : ((g.get cur.sch).types.contains (JType.of v)
          || ((g.get cur.sch).types.contains .integer && is_integer v)) = true := by
        simpa [hempty] using hty
      rcases Bool.and_eq_false_iff.mp hfail with hf | hf <;> simp [hempty, hf, hty']
  · intro g fuel v cur parents cn br vloc c hbool hcyc hty hen hconst hfail
    rw [validate]
    simp only [hbool, hcyc, hen, hconst]
    by_cases hempty : (g.get cur.sch).types.isEmpty
    · simp [hempty, hfail]
    · have hty' : ((g.get cur.sch).types.contains (JType.of v)
          || ((g.get cur.sch).types.contains .integer && is_integer v)) = true := by
        simpa [hempty] using hty
      simp [hempty, hty', hfail]

/-- One-node store whose node only asserts `type string`, for the C8
witness. -/
def c8tyg : Schemas :=
  ⟨[], [(0, { Schema.new "u" 7 with types := [JType.string] })], 1⟩

/-- One-node store whose node only asserts `const "a"`, for the C8
witness. -/
def c8cg : Schemas :=
  ⟨[], [(0, { Schema.new "u" 7 with constant := some (.str "a") })], 1⟩

/-- Witness for `c8_amended`: the `type` short-circuit on a number
against `type string`, the `enum` short-circuit on the compiled
`c8env` node and the instance of the counterexample, and the `const`
short-circuit on a number against `const "a"`. -/
theorem c8_amended_witness :
    (validate c8tyg (0 + 1) (.num 1) ⟨0, none, 0⟩ [] false false []
      = some (.error (mkError false (c8tyg.get 0).loc (some ⟨"type", none⟩) []
          (.typeMismatch (JType.of (.num 1)) (c8tyg.get 0).types))))
    ∧ (validate c8g (2 + 1) (.str "bb") ⟨0, none, 0⟩ [] false false []
      = some (.error (mkError false (c8g.get 0).loc (some ⟨"enum", none⟩) []
          (.enumErr (.str "bb") (⟨[JType.string], [Value.str "a"]⟩ : Enum).values))))
    ∧ (validate c8cg (0 + 1) (.num 1) ⟨0, none, 0⟩ [] false false []
      = some (.error (mkError false (c8cg.get 0).loc (some ⟨"const", none⟩) []
          (.constErr (.num 1) (.str "a"))))) :=
  ⟨c8_amended.1 c8tyg 0 (.num 1) ⟨0, none, 0⟩ [] false false [] rfl rfl rfl rfl,
   c8_amended.2.1 c8g 2 (.str "bb") ⟨0, none, 0⟩ [] false false []
     ⟨[JType.string], [Value.str "a"]⟩ rfl rfl rfl rfl rfl,
   c8_amended.2.2 c8cg 0 (.num 1) ⟨0, none, 0⟩ [] false false [] (.str "a")
     rfl rfl rfl rfl rfl rfl⟩

/-!  Claim C2: pre-2019 `$ref` ignores sibling keywords and is the
only thing evaluated. -/

/-- Claim C2, compiler half: lowering an object that contains `$ref`
under a dialect before 2019 stops right after resolving and enqueueing
the reference — the produced node is the fresh node for the location
with only `ref_` set, every other assertion field left at its
default. -/
theorem c2_compile_only_ref (r0 : RState) (fl : List (String × Value)) (loc : String)
    (root : Root) (refstr : String)
    (href : ((fl.find? (fun kv => kv.1 == "$ref")).map (fun kv => kv.2) : Option Value)
              = some (.str refstr))
    (hdraft : root.draft_version < 2019) :
    compile_obj r0 fl loc root
      = ({ Schema.new loc root.draft_version with
            ref_ := some (r0.enqueue (url_join root.url refstr)).1 },
         (r0.enqueue (url_join root.url refstr)).2) := by
  unfold compile_obj
  rw [href]
  cases he : r0.enqueue (url_join root.url refstr) with
  | mk i r1 =>
      simp [he, hdraft]

/-- Claim C2, validator half: a node carrying only a reference (as the
pre-2019 compiler produces) validates any instance as exactly the
reference's own validation: the annotations are those the reference
target reports (merged into the node's), a failure is the target's
failure wrapped in the `Reference` node (a `Group`'s causes spliced),
and nothing else of the node is evaluated. -/
theorem c2_ref_exclusive (g : Schemas) (fuel : Nat) (v : Value) (cur : Frame)
    (parents : List Frame) (cn br : Bool) (vloc : List InstToken) (ridx : Nat)
    (hbool : (g.get cur.sch).boolean = none)
    (hcyc : check_cycle cur parents = none)
    (htypes : (g.get cur.sch).types = [])
    (hen : (g.get cur.sch).enum_ = none)
    (hconst : (g.get cur.sch).constant = none)
    (href : (g.get cur.sch).ref_ = some ridx)
    (hdraft : (g.get cur.sch).draft_version < 2019) :
    validate g (fuel + 1) v cur parents cn br vloc
      = match validate g fuel v ⟨ridx, some "$ref", cur.vid⟩ (cur :: parents)
            (!(Uneval.ofVal v (g.get cur.sch) cn).is_empty) br vloc with
        | none => none
        | some (.ok reply) =>
            some (.ok ((Uneval.ofVal v (g.get cur.sch) cn).merge reply))
        | some (.error err) =>
            some (.error
              { mkError br (g.get cur.sch).loc (some ⟨"$ref", none⟩) vloc
                  (.reference (g.get ridx).loc) with
                causes := if err.kind.isGroup then err.causes else [err] }) := by
  rw [validate]
  simp only [hbool, hcyc, htypes, hen, hconst, href]
  unfold validate_ref_wrap
  simp only [Bool.or_false]
  cases hres : validate g fuel v ⟨ridx, some "$ref", cur.vid⟩ (cur :: parents)
      (!(Uneval.ofVal v (g.get cur.sch) cn).is_empty) br vloc with
  | none => simp [hres, hdraft]
  | some res =>
      cases res with
      | ok reply => simp [hres, hdraft]
      | error err =>
          by_cases hk : err.kind.isGroup <;> simp [hres, hdraft, hk]

/-- Claim C2: under a dialect before 2019, an object with `$ref`
compiles to a node that carries only the reference (first conjunct,
`compile_obj` stops at the early return), and validating any instance
against such a node is exactly the reference target's validation — its
annotations merged in, its failure wrapped in the `Reference` node —
with no sibling assertion evaluated (second conjunct). -/
theorem c2_claim :
    (∀ (r0 : RState) (fl : List (String × Value)) (loc : String) (root : Root)
       (refstr : String),
      ((fl.find? (fun kv => kv.1 == "$ref")).map (fun kv => kv.2) : Option Value)
          = some (.str refstr) →
      root.draft_version < 2019 →
      compile_obj r0 fl loc root
        = ({ Schema.new loc root.draft_version with
              ref_ := some (r0.enqueue (url_join root.url refstr)).1 },
           (r0.enqueue (url_join root.url refstr)).2))
    ∧ (∀ (g : Schemas) (fuel : Nat) (v : Value) (cur : Frame) (parents : List Frame)
        (cn br : Bool) (vloc : List InstToken) (ridx : Nat),
      (g.get cur.sch).boolean = none →
      check_cycle cur parents = none →
      (g.get cur.sch).types = [] →
      (g.get cur.sch).enum_ = none →
      (g.get cur.sch).constant = none →
      (g.get cur.sch).ref_ = some ridx →
      (g.get cur.sch).draft_version < 2019 →
      validate g (fuel + 1) v cur parents cn br vloc
        = match validate g fuel v ⟨ridx, some "$ref", cur.vid⟩ (cur :: parents)
              (!(Uneval.ofVal v (g.get cur.sch) cn).is_empty) br vloc with
          | none => none
          | some (.ok reply) =>
              some (.ok ((Uneval.ofVal v (g.get cur.sch) cn).merge reply))
          | some (.error err) =>
              some (.error
                { mkError br (g.get cur.sch).loc (some ⟨"$ref", none⟩) vloc
                    (.reference (g.get ridx).loc) with
                  causes := if err.kind.isGroup then err.causes else [err] })) :=
  ⟨fun r0 fl loc root refstr h1 h2 => c2_compile_only_ref r0 fl loc root refstr h1 h2,
   fun g fuel v cur parents cn br vloc ridx h1 h2 h3 h4 h5 h6 h7 =>
     c2_ref_exclusive g fuel v cur parents cn br vloc ridx h1 h2 h3 h4 h5 h6 h7⟩

/-- The draft-7 document of the C2 witness: a `$ref` with a sibling
`type` keyword and the referenced sub-schema. -/
def c2fl : List (String × Value) :=
  [("$ref", .str "#/defs"), ("type", .str "number"),
   ("defs", .obj (.cons "type" (.str "string") .nil))]

/-- The pre-loaded root of the C2 witness. -/
def c2root : Root := ⟨"http://a.com/s", .obj (VFields.ofList c2fl), 7⟩

/-- The compiled graph of the C2 witness (referenced sub-schema at 0,
root node at 1). -/
def c2g : Schemas :=
  (compile ⟨[c2root]⟩ Schemas.empty "http://a.com/s" 10).elim Schemas.empty (fun r => r.2)

/-- Witness for `c2_claim`: both halves applied to the concrete
document `c2fl` (compiler half) and its compiled graph (validator
half, on the instance `"hello"`). -/
theorem c2_claim_witness :
    (compile_obj ⟨[], 0, ["http://a.com/s#"]⟩ c2fl "http://a.com/s#" c2root
      = ({ Schema.new "http://a.com/s#" 7 with
            ref_ := some ((⟨[], 0, ["http://a.com/s#"]⟩ : RState).enqueue
              (url_join "http://a.com/s" "#/defs")).1 },
         ((⟨[], 0, ["http://a.com/s#"]⟩ : RState).enqueue
           (url_join "http://a.com/s" "#/defs")).2))
    ∧ (validate c2g (5 + 1) (.str "hello") ⟨1, none, 0⟩ [] false false []
        = match validate c2g 5 (.str "hello") ⟨0, some "$ref", 0⟩ [⟨1, none, 0⟩]
              (!(Uneval.ofVal (.str "hello") (c2g.get 1) false).is_empty) false [] with
          | none => none
          | some (.ok reply) =>
              some (.ok ((Uneval.ofVal (.str "hello") (c2g.get 1) false).merge reply))
          | some (.error err) =>
              some (.error
                { mkError false (c2g.get 1).loc (some ⟨"$ref", none⟩) []
                    (.reference (c2g.get 0).loc) with
                  causes := if err.kind.isGroup then err.causes else [err] })) :=
  ⟨c2_claim.1 ⟨[], 0, ["http://a.com/s#"]⟩ c2fl "http://a.com/s#" c2root "#/defs"
      rfl (by decide),
   c2_claim.2 c2g 5 (.str "hello") ⟨1, none, 0⟩ [] false false [] 0
      rfl rfl rfl rfl rfl rfl (by decide)⟩

/-!  Claim C4: cycle guard and termination of the self-referential
schema. -/

/-- Non-increasing `vid`s along a scope chain (the invariant the
validator maintains: a child frame's `vid` is its parent's or its
parent's plus one, so `vid`s never grow walking outward). -/
def vidMono : List Frame → Bool
  | [] => true
  | [_] => true
  | a :: b :: t => decide (b.vid ≤ a.vid) && vidMono (b :: t)

/-- Under `vidMono`, every frame below the head has a `vid` at most the
head's. -/
theorem vidMono_bound (a : Frame) (l : List Frame) (h : vidMono (a :: l) = true) :
    ∀ f ∈ l, f.vid ≤ a.vid := by
  induction l generalizing a with
  | nil => intro f hf; cases hf
  | cons b t ih =>
      intro f hf
      rw [vidMono] at h
      rcases Bool.and_eq_true_iff.mp h with ⟨h1, h2⟩
      rcases List.mem_cons.mp hf with hf1 | hf1
      · subst hf1
        exact of_decide_eq_true h1
      · exact le_trans (ih b h2 f hf1) (of_decide_eq_true h1)

/-- The roots catalog pre-loading the self-referential draft-4
document of claim C4. -/
def c4env : Roots :=
  ⟨[⟨"http://a.com/s", .obj (.cons "$ref" (.str "#") .nil), 4⟩]⟩

/-- The compiled graph of `c4env`: a single node whose `ref_` is its
own index. -/
def c4g : Schemas :=
  (compile c4env Schemas.empty "http://a.com/s" 10).elim Schemas.empty (fun r => r.2)

/-- The error tree every validation against `c4g` produces: the root
`Schema` wrapper around the `Reference` node around the `RefCycle`
diagnostic raised by the cycle guard on the re-entered scope. -/
def c4err : ValidationError :=
  { schemaUrl := "http://a.com/s#", keywordPath := none, instanceLocation := [],
    kind := .schemaErr "http://a.com/s#",
    causes := [
      { schemaUrl := "http://a.com/s#", keywordPath := some ⟨"$ref", none⟩,
        instanceLocation := [], kind := .reference "http://a.com/s#",
        causes := [
          { schemaUrl := "http://a.com/s#", keywordPath := none,
            instanceLocation := [],
            kind := .refCycle "http://a.com/s#" "$ref" "", causes := [] }] }] }

/-- Claim C4.  First conjunct: validating any instance against the
compiled `{"$ref": "#"}` schema terminates (fuel 2 suffices, whatever
the instance) with an error whose tree contains a `RefCycle`
diagnostic.  Second conjunct: on a scope chain with non-increasing
`vid`s, the cycle guard fires exactly when some ancestor frame has the
current frame's `vid` and schema index.  Third conjunct: when the
guard fires on a non-boolean node, the visit returns the `RefCycle`
error at once. -/
theorem c4_claim :
    (∀ v : Value,
      validateStart c4g v 0 2 = some (.error c4err)
      ∧ errHasKind ErrorKind.isRefCycle 3 c4err = true)
    ∧ (∀ (cur : Frame) (parents : List Frame),
      vidMono (cur :: parents) = true →
      ((check_cycle cur parents).isSome
        ↔ ∃ f ∈ parents, f.vid = cur.vid ∧ f.sch = cur.sch))
    ∧ (∀ (g : Schemas) (fuel : Nat) (v : Value) (cur : Frame) (parents : List Frame)
        (cn br : Bool) (vloc : List InstToken) (scp : List Frame),
      (g.get cur.sch).boolean = none →
      check_cycle cur parents = some scp →
      validate g (fuel + 1) v cur parents cn br vloc
        = some (.error (mkError br (g.get cur.sch).loc none vloc
            (.refCycle (g.get cur.sch).loc (kw_loc g (cur :: parents)) (kw_loc g scp))))) := by
  refine ⟨?_, ?_, ?_⟩
  · intro v
    exact ⟨by cases v <;> rfl, rfl⟩
  · intro cur parents
    induction parents with
    | nil =>
        intro _
        simp [check_cycle]
    | cons p rest ih =>
        intro h
        rw [check_cycle]
        by_cases hv : p.vid = cur.vid
        · by_cases hs : p.sch = cur.sch
          · rw [if_neg (by simp [hv]), if_pos (by simp [hs])]
            simp only [Option.isSome_some, true_iff]
            exact ⟨p, List.mem_cons_self p rest, hv, hs⟩
          · have hvm : vidMono (cur :: rest) = true := by
              cases rest with
              | nil => rfl
              | cons b t =>
                  rw [vidMono] at h ⊢
                  rcases Bool.and_eq_true_iff.mp h with ⟨_, h2⟩
                  rw [vidMono] at h2
                  rcases Bool.and_eq_true_iff.mp h2 with ⟨h3, h4⟩
                  exact Bool.and_eq_true_iff.mpr
                    ⟨decide_eq_true (le_trans (of_decide_eq_true h3) (le_of_eq hv)), h4⟩
            have hiff := ih hvm
            rw [if_neg (by simp [hv]), if_neg (by simp [hs])]
            rw [hiff]
            constructor
            · rintro ⟨f, hf, hfv, hfs⟩
              exact ⟨f, List.mem_cons_of_mem p hf, hfv, hfs⟩
            · rintro ⟨f, hf, hfv, hfs⟩
              rcases List.mem_cons.mp hf with hf1 | hf1
              · subst hf1
                exact absurd hfs hs
              · exact ⟨f, hf1, hfv, hfs⟩
        · rw [if_pos (by simp [bne_iff_ne]; exact fun he => hv he)]
          simp only [Option.isSome_none, Bool.false_eq_true, false_iff]
          rintro ⟨f, hf, hfv, hfs⟩
          rcases List.mem_cons.mp hf with hf1 | hf1
          · subst hf1
            exact hv hfv
          · rw [vidMono] at h
            rcases Bool.and_eq_true_iff.mp h with ⟨h1, h2⟩
            have hle : f.vid ≤ p.vid := vidMono_bound p rest h2 f hf1
            have hpc : p.vid ≤ cur.vid := of_decide_eq_true h1
            have : p.vid = cur.vid := le_antisymm hpc (hfv ▸ hle)
            exact hv this
  · intro g fuel v cur parents cn br vloc scp hbool hcyc
    rw [validate]
    simp [hbool, hcyc]

/-- Witness for `c4_claim`: the three conjuncts applied concretely —
the null instance against the compiled self-reference, the scope chain
the self-reference builds, and the re-entered visit that raises the
`RefCycle`. -/
theorem c4_claim_witness :
    (validateStart c4g Value.null 0 2 = some (.error c4err)
      ∧ errHasKind ErrorKind.isRefCycle 3 c4err = true)
    ∧ ((check_cycle ⟨0, some "$ref", 0⟩ [⟨0, none, 0⟩]).isSome
        ↔ ∃ f ∈ [(⟨0, none, 0⟩ : Frame)], f.vid = 0 ∧ f.sch = 0)
    ∧ validate c4g (0 + 1) Value.null ⟨0, some "$ref", 0⟩ [⟨0, none, 0⟩] false false []
        = some (.error (mkError false (c4g.get 0).loc none []
            (.refCycle (c4g.get 0).loc
              (kw_loc c4g [⟨0, some "$ref", 0⟩, ⟨0, none, 0⟩])
              (kw_loc c4g [⟨0, none, 0⟩])))) :=
  ⟨c4_claim.1 Value.null,
   c4_claim.2.1 ⟨0, some "$ref", 0⟩ [⟨0, none, 0⟩] rfl,
   c4_claim.2.2 c4g 0 Value.null ⟨0, some "$ref", 0⟩ [⟨0, none, 0⟩] false false []
     [⟨0, none, 0⟩] rfl rfl⟩

/-!  Claim C10: shape of the root error returned by a failing
`Schemas::validate`. -/

/-- Claim C10: whenever the root visit fails, the returned error has
kind `Schema` with the compiled schema's canonical location as its url
(also recorded as its absolute keyword location), an empty instance
location, and the actual failures as its causes — a `Group` inner
error's causes are spliced directly in, so the returned root is never a
`Group` node. -/
theorem c10_claim (g : Schemas) (sch_index : Nat) (v : Value) (fuel : Nat)
    (err : ValidationError)
    (h : validate g fuel v ⟨(g.get sch_index).idx, none, 0⟩ [] false false []
          = some (.error err)) :
    validateStart g v sch_index fuel
      = some (.error
          { schemaUrl := (g.get sch_index).loc, keywordPath := none,
            instanceLocation := [], kind := .schemaErr (g.get sch_index).loc,
            causes := if err.kind.isGroup then err.causes else [err] })
    ∧ (ErrorKind.schemaErr (g.get sch_index).loc).isGroup = false := by
  refine ⟨?_, rfl⟩
  unfold validateStart
  dsimp only
  rw [h]

/-- Witness for `c10_claim`: the wrapper applied to the failing run of
the `c8env` graph, whose inner error is the (non-`Group`) enum
error. -/
theorem c10_claim_witness :
    validateStart c8g (.str "bb") 0 5
      = some (.error
          { schemaUrl := (c8g.get 0).loc, keywordPath := none,
            instanceLocation := [], kind := .schemaErr (c8g.get 0).loc,
            causes := if (ErrorKind.enumErr (.str "bb") [Value.str "a"]).isGroup
                      then ([] : List ValidationError)
                      else [{ schemaUrl := "http://a.com/s#",
                              keywordPath := some ⟨"enum", none⟩,
                              instanceLocation := [],
                              kind := .enumErr (.str "bb") [Value.str "a"],
                              causes := [] }] }) :=
  (c10_claim c8g 0 (.str "bb") 5
    { schemaUrl := "http://a.com/s#", keywordPath := some ⟨"enum", none⟩,
      instanceLocation := [], kind := .enumErr (.str "bb") [Value.str "a"],
      causes := [] } rfl).1

/-!  Claim C5: `contains` / `minContains` accounting. -/

/-- Positions at which the contains predicate matches, over `n`
positions starting at `i0`. -/
def cmatched (M : Nat → Bool) : Nat → Nat → List Nat
  | _, 0 => []
  | i0, n + 1 => (if M i0 then [i0] else []) ++ cmatched M (i0 + 1) n

/-- Branch errors of the non-matching positions, over `n` positions
starting at `i0`. -/
def cerrs (M : Nat → Bool) (E : Nat → ValidationError) :
    Nat → Nat → List ValidationError
  | _, 0 => []
  | i0, n + 1 => (if M i0 then [] else [E i0]) ++ cerrs M E (i0 + 1) n

/-- Sequential removal of indices from an annotation-item list, in the
order the contains loop performs it. -/
def removeAllItems (items : List Nat) (idxs : List Nat) : List Nat :=
  idxs.foldl (fun acc i => acc.filter (fun j => j != i)) items

/-- An index absent from the item list stays absent through
`removeAllItems`. -/
theorem removeAllItems_not_mem_of_not_mem (i : Nat) :
    ∀ (idxs : List Nat) (items : List Nat), i ∉ items → i ∉ removeAllItems items idxs := by
  intro idxs
  induction idxs with
  | nil => intro items h; exact h
  | cons a rest ih =>
      intro items h
      refine ih (items.filter (fun j => j != a)) ?_
      intro hmem
      exact h (List.mem_of_mem_filter hmem)

/-- Every index removed by `removeAllItems` is indeed gone from the
result. -/
theorem removeAllItems_not_mem (i : Nat) :
    ∀ (idxs : List Nat) (items : List Nat), i ∈ idxs → i ∉ removeAllItems items idxs := by
  intro idxs
  induction idxs with
  | nil => intro items h; cases h
  | cons a rest ih =>
      intro items h
      rcases List.mem_cons.mp h with h1 | h1
      · subst h1
        refine removeAllItems_not_mem_of_not_mem i rest _ ?_
        intro hmem
        have := List.of_mem_filter hmem
        simp at this
      · exact ih _ h1

/-- The match list is empty exactly when no position matches. -/
theorem cmatched_empty_iff (M : Nat → Bool) :
    ∀ (n i0 : Nat), cmatched M i0 n = [] ↔ ∀ k, k < n → M (i0 + k) = false := by
  intro n
  induction n with
  | zero => intro i0; simp [cmatched]
  | succ m ih =>
      intro i0
      rw [cmatched]
      by_cases hm : M i0
      · simp only [hm, if_true]
        constructor
        · intro h; cases h
        · intro h
          have := h 0 (Nat.succ_pos m)
          simp [hm] at this
      · rw [if_neg hm, List.nil_append]
        rw [ih (i0 + 1)]
        constructor
        · intro h k hk
          cases k with
          | zero => simpa using (Bool.eq_false_iff.mpr hm)
          | succ k' =>
              have := h k' (Nat.lt_of_succ_lt_succ hk)
              simpa [Nat.add_assoc, Nat.add_comm 1 k'] using this
        · intro h k hk
          have := h (k + 1) (Nat.succ_lt_succ hk)
          simpa [Nat.add_assoc, Nat.add_comm 1 k] using this

/-- Characterization of the `contains` element loop: the final state
keeps the errors and properties untouched, removes exactly the matched
indices from the annotation set when the dialect is 2020 or later, and
reports the matched indices and the branch errors of the failing
elements in order. -/
theorem contains_loop_spec (vv : VV) (csch dv : Nat) (vloc : List InstToken)
    (M : Nat → Bool) (E : Nat → ValidationError) :
    ∀ (lst : List Value) (i0 : Nat) (st : VState) (macc : List Nat)
      (eacc : List ValidationError),
    (∀ k, k < lst.length →
      vv csch (lst.getD k .null) (vloc ++ [.item (i0 + k)])
        = some (if M (i0 + k) then Except.ok () else Except.error (E (i0 + k)))) →
    contains_loop vv csch dv vloc lst i0 st macc eacc
      = some (⟨⟨st.uneval.props,
                if dv ≥ 2020 then removeAllItems st.uneval.items (cmatched M i0 lst.length)
                else st.uneval.items⟩,
               st.errors⟩,
              macc ++ cmatched M i0 lst.length,
              eacc ++ cerrs M E i0 lst.length) := by
  intro lst
  induction lst with
  | nil =>
      intro i0 st macc eacc _
      simp [contains_loop, cmatched, cerrs, removeAllItems]
  | cons v rest ih =>
      intro i0 st macc eacc hvv
      have h0 := hvv 0 (Nat.succ_pos rest.length)
      simp only [List.getD_cons_zero, Nat.add_zero] at h0
      have hshift : ∀ k, k < rest.length →
          vv csch (rest.getD k .null) (vloc ++ [.item (i0 + 1 + k)])
            = some (if M (i0 + 1 + k) then Except.ok () else Except.error (E (i0 + 1 + k))) := by
        intro k hk
        have := hvv (k + 1) (Nat.succ_lt_succ hk)
        simpa [Nat.add_assoc, Nat.add_comm 1 k] using this
      rw [contains_loop]
      by_cases hm : M i0
      · rw [h0, if_pos hm]
        dsimp only
        rw [ih (i0 + 1) _ _ _ hshift]
        by_cases hdv : dv ≥ 2020
        · simp [hdv, removeItem, cmatched, cerrs, hm, removeAllItems]
        · simp [hdv, cmatched, cerrs, hm, removeAllItems]
      · rw [h0, if_neg hm]
        dsimp only
        rw [ih (i0 + 1) _ _ _ hshift]
        simp [cmatched, cerrs, hm]

/-- Claim C5: the `contains` accounting of `arr_validate`.  First
conjunct, the full characterization of the section: with `minContains`
absent the `Contains` error (carrying every failing element's error as
causes) is reported exactly when the match list is empty (default
minimum one); with `minContains = 0` the `length < 0` test can never
fire, so the pair contributes no error whatever matches; and for
dialect 2020 and later exactly the matched indices are removed from the
unevaluated-items set.  Second conjunct: the match list is empty
exactly when no element matches.  Third conjunct: a matched index never
survives the removal. -/
theorem c5_claim (s : Schema) (br : Bool) (vv : VV) (arr : List Value)
    (vloc : List InstToken) (st : VState) (csch : Nat)
    (M : Nat → Bool) (E : Nat → ValidationError)
    (hc : s.contains = some csch)
    (hvv : ∀ k, k < arr.length →
      vv csch (arr.getD k .null) (vloc ++ [.item k])
        = some (if M k then Except.ok () else Except.error (E k))) :
    (contains_section s br vv arr vloc st
      = some ⟨⟨st.uneval.props,
               if s.draft_version ≥ 2020 then
                 removeAllItems st.uneval.items (cmatched M 0 arr.length)
               else st.uneval.items⟩,
              st.errors
              ++ (match s.min_contains with
                  | some m =>
                      if (cmatched M 0 arr.length).length < m then
                        [{ mkError br s.loc (some ⟨"minContains", none⟩) vloc
                             (.minContains (cmatched M 0 arr.length) m) with
                           causes := cerrs M E 0 arr.length }]
                      else []
                  | none =>
                      if (cmatched M 0 arr.length).isEmpty then
                        [{ mkError br s.loc (some ⟨"contains", none⟩) vloc .containsErr with
                           causes := cerrs M E 0 arr.length }]
                      else [])
              ++ (match s.max_contains with
                  | some m =>
                      if (cmatched M 0 arr.length).length > m then
                        [mkError br s.loc (some ⟨"maxContains", none⟩) vloc
                           (.maxContains (cmatched M 0 arr.length) m)]
                      else []
                  | none => [])⟩)
    ∧ (cmatched M 0 arr.length = [] ↔ ∀ k, k < arr.length → M k = false)
    ∧ (∀ i ∈ cmatched M 0 arr.length,
        i ∉ removeAllItems st.uneval.items (cmatched M 0 arr.length)) := by
  refine ⟨?_, ?_, ?_⟩
  · have hvv0 : ∀ k, k < arr.length →
        vv csch (arr.getD k .null) (vloc ++ [.item (0 + k)])
          = some (if M (0 + k) then Except.ok () else Except.error (E (0 + k))) := by
      intro k hk
      simpa using hvv k hk
    unfold contains_section
    rw [hc]
    try dsimp only
    rw [contains_loop_spec vv csch s.draft_version vloc M E arr 0 st [] [] hvv0]
    try dsimp only
    cases hmin : s.min_contains with
    | none =>
        cases hmax : s.max_contains with
        | none =>
            simp only [hc, Option.isSome_some, List.nil_append]
            by_cases h1 : (cmatched M 0 arr.length).isEmpty <;>
              simp_all [pushErr]
        | some m2 =>
            simp only [hc, Option.isSome_some, List.nil_append]
            by_cases h1 : (cmatched M 0 arr.length).isEmpty <;>
              by_cases h2 : m2 < (cmatched M 0 arr.length).length <;>
                simp [h2, pushErr] <;> simp_all [pushErr]
    | some m =>
        cases hmax : s.max_contains with
        | none =>
            simp only [List.nil_append]
            by_cases h1 : (cmatched M 0 arr.length).length < m <;>
              simp [h1, pushErr]
        | some m2 =>
            simp only [List.nil_append]
            by_cases h1 : (cmatched M 0 arr.length).length < m <;>
              by_cases h2 : m2 < (cmatched M 0 arr.length).length <;>
                simp [h1, h2, pushErr]
  · have := cmatched_empty_iff M arr.length 0
    simpa using this
  · intro i hi
    exact removeAllItems_not_mem i (cmatched M 0 arr.length) st.uneval.items hi

/-- Error value used by the C5 witness. -/
def c5err : ValidationError :=
  { schemaUrl := "w", keywordPath := none, instanceLocation := [],
    kind := .containsErr, causes := [] }

/-- Probe used by the C5 witness: strings match the contains schema,
everything else fails. -/
def c5vv : VV := fun _ v' _ =>
  match v' with
  | .str _ => some (.ok ())
  | _ => some (.error c5err)

/-- Witness for `c5_claim`: the characterization applied to a concrete
2020 node with `contains` and the two-element array whose first element
only matches. -/
theorem c5_claim_witness :
    (contains_section { Schema.new "u" 2020 with contains := some 0 } false c5vv
        [.str "a", .num 1] [] ⟨⟨[], [0, 1]⟩, []⟩
      = some ⟨⟨(⟨⟨[], [0, 1]⟩, []⟩ : VState).uneval.props,
               if (2020 : Nat) ≥ 2020 then
                 removeAllItems (⟨⟨[], [0, 1]⟩, []⟩ : VState).uneval.items
                   (cmatched (fun i => i == 0) 0 2)
               else (⟨⟨[], [0, 1]⟩, []⟩ : VState).uneval.items⟩,
              ([] : List ValidationError)
              ++ (if (cmatched (fun i => i == 0) 0 2).isEmpty then
                    [{ mkError false "u" (some ⟨"contains", none⟩) [] .containsErr with
                       causes := cerrs (fun i => i == 0) (fun _ => c5err) 0 2 }]
                  else [])
              ++ ([] : List ValidationError)⟩)
    ∧ (cmatched (fun i => i == 0) 0 2 = [] ↔ ∀ k, k < 2 → (k == 0) = false)
    ∧ (∀ i ∈ cmatched (fun i => i == 0) 0 2,
        i ∉ removeAllItems [0, 1] (cmatched (fun i => i == 0) 0 2)) :=
  c5_claim { Schema.new "u" 2020 with contains := some 0 } false c5vv
    [.str "a", .num 1] [] ⟨⟨[], [0, 1]⟩, []⟩ 0 (fun i => i == 0) (fun _ => c5err)
    rfl (by
      intro k hk
      match k, hk with
      | 0, _ => rfl
      | 1, _ => rfl)

/-!  Claim C3: `oneOf` semantics. -/

/-- Position of the first accepting branch, counting from `i`. -/
def firstAccept (A : Nat → Bool) : List Nat → Nat → Option Nat
  | [], _ => none
  | sch :: rest, i => if A sch then some i else firstAccept A rest (i + 1)

/-- Branch errors collected before the first accepting branch (all of
them when no branch accepts). -/
def rejectsUntilFirst (A : Nat → Bool) (E : Nat → ValidationError) :
    List Nat → List ValidationError
  | [] => []
  | sch :: rest => if A sch then [] else E sch :: rejectsUntilFirst A E rest

/-- The index pairs the loop reports: each accepting branch after the
first, paired with the first accepting branch's position. -/
def oneOfPairs (A : Nat → Bool) : List Nat → Nat → Option Nat → List (Nat × Nat)
  | [], _, _ => []
  | sch :: rest, i, none =>
      if A sch then oneOfPairs A rest (i + 1) (some i)
      else oneOfPairs A rest (i + 1) none
  | sch :: rest, i, some prev =>
      if A sch then (prev, i) :: oneOfPairs A rest (i + 1) (some prev)
      else oneOfPairs A rest (i + 1) (some prev)

/-- When no branch accepts, every branch contributes one collected
error. -/
theorem firstAccept_none_rejects_len (A : Nat → Bool) (E : Nat → ValidationError) :
    ∀ (lst : List Nat) (i : Nat), firstAccept A lst i = none →
      (rejectsUntilFirst A E lst).length = lst.length := by
  intro lst
  induction lst with
  | nil => intro i _; rfl
  | cons sch rest ih =>
      intro i h
      rw [firstAccept] at h
      by_cases hA : A sch
      · rw [if_pos hA] at h
        cases h
      · rw [if_neg hA] at h
        rw [rejectsUntilFirst, if_neg hA]
        simp [ih (i + 1) h]

/-- Characterization of the `oneOf` probing loop, generic in the
branch behaviour: an accepting probe only refreshes the annotations and
keeps the errors; a rejected probe leaves the state untouched and
produces a state-independent error when probed for real (before the
first match); rejected probes after the first match may produce any
error, which the loop discards. -/
theorem one_of_loop_spec (vs : VS) (mkE : ErrorKind → ValidationError)
    (A : Nat → Bool) (E : Nat → ValidationError) :
    ∀ (lst : List Nat) (i : Nat) (st : VState) (prevOpt : Option Nat)
      (eacc : List ValidationError),
    (∀ sch ∈ lst, A sch = true → ∀ (stx : VState) (b : Bool),
        ∃ u, vs stx sch none b = some (⟨u, stx.errors⟩, .ok ())) →
    (∀ sch ∈ lst, A sch = false → ∀ (stx : VState),
        vs stx sch none false = some (stx, .error (E sch))) →
    (∀ sch ∈ lst, A sch = false → ∀ (stx : VState),
        ∃ e, vs stx sch none true = some (stx, .error e)) →
    ∃ u, one_of_loop vs mkE lst i st prevOpt eacc
      = some (⟨u, st.errors ++ (oneOfPairs A lst i prevOpt).map
                 (fun p => mkE (.oneOf (some p)))⟩,
              (match prevOpt with | some p => some p | none => firstAccept A lst i),
              eacc ++ (match prevOpt with
                       | some _ => []
                       | none => rejectsUntilFirst A E lst)) := by
  intro lst
  induction lst with
  | nil =>
      intro i st prevOpt eacc _ _ _
      refine ⟨st.uneval, ?_⟩
      cases prevOpt <;> simp [one_of_loop, oneOfPairs, firstAccept, rejectsUntilFirst]
  | cons sch rest ih =>
      intro i st prevOpt eacc hacc hrejF hrejT
      have haccR := fun sch' hm => hacc sch' (List.mem_cons_of_mem _ hm)
      have hrejFR := fun sch' hm => hrejF sch' (List.mem_cons_of_mem _ hm)
      have hrejTR := fun sch' hm => hrejT sch' (List.mem_cons_of_mem _ hm)
      rw [one_of_loop]
      by_cases hA : A sch
      · obtain ⟨u0, hu0⟩ := hacc sch (List.mem_cons_self _ _) hA st prevOpt.isSome
        rw [hu0]
        dsimp only
        cases prevOpt with
        | none =>
            try dsimp only
            obtain ⟨u, hu⟩ := ih (i + 1) ⟨u0, st.errors⟩ (some i) eacc haccR hrejFR hrejTR
            refine ⟨u, ?_⟩
            rw [hu]
            simp [oneOfPairs, firstAccept, rejectsUntilFirst, hA]
        | some prev =>
            try dsimp only
            obtain ⟨u, hu⟩ := ih (i + 1)
              (pushErr ⟨u0, st.errors⟩ (mkE (.oneOf (some (prev, i))))) (some prev) eacc
              haccR hrejFR hrejTR
            refine ⟨u, ?_⟩
            rw [hu]
            simp [oneOfPairs, hA, pushErr]
      · cases prevOpt with
        | none =>
            have h0 := hrejF sch (List.mem_cons_self _ _) (by simpa using hA) st
            rw [show (none : Option Nat).isSome = false from rfl, h0]
            obtain ⟨u, hu⟩ := ih (i + 1) st none (eacc ++ [E sch]) haccR hrejFR hrejTR
            refine ⟨u, ?_⟩
            simp [hu, oneOfPairs, firstAccept, rejectsUntilFirst, hA]
        | some prev =>
            obtain ⟨e0, h0⟩ := hrejT sch (List.mem_cons_self _ _) (by simpa using hA) st
            rw [show (some prev : Option Nat).isSome = true from rfl, h0]
            obtain ⟨u, hu⟩ := ih (i + 1) st (some prev) eacc haccR hrejFR hrejTR
            refine ⟨u, ?_⟩
            simp [hu, oneOfPairs, hA]

/-- When no branch accepts, the loop reports no index pair. -/
theorem firstAccept_none_pairs (A : Nat → Bool) :
    ∀ (lst : List Nat) (i : Nat), firstAccept A lst i = none →
      oneOfPairs A lst i none = [] := by
  intro lst
  induction lst with
  | nil => intro i _; rfl
  | cons sch rest ih =>
      intro i h
      rw [firstAccept] at h
      by_cases hA : A sch
      · rw [if_pos hA] at h
        cases h
      · rw [if_neg hA] at h
        rw [oneOfPairs, if_neg hA]
        exact ih (i + 1) h

/-- Claim C3, amended: the `oneOf` section of `cond_validate` (stated
with the other combinators absent so that it is the only contributor).
If some branch accepts, the errors appended are exactly one
`OneOf(Some(first, k))` error per further accepting branch `k` — none
at all when exactly one accepts, and the pair of the first two
accepting branches foremost when several do.  If no branch accepts,
with two or more branches a single `OneOf(None)` error carrying every
branch's error as its causes is appended; the sole branch's error is
appended directly, without a `OneOf` wrapper, when the list has exactly
one branch. -/
theorem c3_amended (s : Schema) (br : Bool) (vloc : List InstToken) (vs : VS)
    (st : VState) (A : Nat → Bool) (E : Nat → ValidationError)
    (hnot : s.not_ = none) (hall : s.all_of = []) (hany : s.any_of = [])
    (hif : s.if_ = none) (hone : s.one_of ≠ [])
    (hacc : ∀ sch ∈ s.one_of, A sch = true → ∀ (stx : VState) (b : Bool),
        ∃ u, vs stx sch none b = some (⟨u, stx.errors⟩, .ok ()))
    (hrejF : ∀ sch ∈ s.one_of, A sch = false → ∀ (stx : VState),
        vs stx sch none false = some (stx, .error (E sch)))
    (hrejT : ∀ sch ∈ s.one_of, A sch = false → ∀ (stx : VState),
        ∃ e, vs stx sch none true = some (stx, .error e)) :
    ∃ u, cond_validate s br vloc vs st
      = some ⟨u, st.errors ++
          (match firstAccept A s.one_of 0 with
           | some _ =>
               (oneOfPairs A s.one_of 0 none).map
                 (fun p => mkError br s.loc (some ⟨"oneOf", none⟩) vloc (.oneOf (some p)))
           | none =>
               if s.one_of.length == 1 then rejectsUntilFirst A E s.one_of
               else [{ mkError br s.loc (some ⟨"oneOf", none⟩) vloc (.oneOf none) with
                       causes := rejectsUntilFirst A E s.one_of }])⟩ := by
  obtain ⟨u, hu⟩ := one_of_loop_spec vs
    (fun k => mkError br s.loc (some ⟨"oneOf", none⟩) vloc k) A E s.one_of 0 st none []
    hacc hrejF hrejT
  have hne : s.one_of.isEmpty = false := by
    cases ho : s.one_of with
    | nil => exact absurd ho hone
    | cons a l => rfl
  refine ⟨u, ?_⟩
  unfold cond_validate
  rw [hnot, hall, hany, hif]
  simp only [List.isEmpty_nil, Bool.not_true, Bool.false_eq_true, if_false, hne,
    Bool.not_false, if_true]
  rw [hu]
  cases hfa : firstAccept A s.one_of 0 with
  | some p =>
      simp [hfa]
  | none =>
      have hlen := firstAccept_none_rejects_len A E s.one_of 0 hfa
      have hpairs := firstAccept_none_pairs A s.one_of 0 hfa
      by_cases h1 : s.one_of.length = 1
      · simp [hfa, hpairs, add_errors, hlen, h1]
      · simp [hfa, hpairs, add_errors, hlen, h1]

/-- The roots catalog of the C3 counterexample: a draft-7 document
whose `oneOf` has a single branch. -/
def c3env : Roots :=
  ⟨[⟨"http://a.com/s",
     .obj (.cons "oneOf" (.arr (.cons (.obj (.cons "type" (.str "string") .nil)) .nil)) .nil),
     7⟩]⟩

/-- The compiled graph of `c3env` (branch at 0, root at 1). -/
def c3g : Schemas :=
  (compile c3env Schemas.empty "http://a.com/s" 10).elim Schemas.empty (fun r => r.2)

/-- Claim C3, counterexample: against the instance 1 the single branch
of the one-element `oneOf` rejects, so no branch accepts — yet no
`OneOf(None)` error appears anywhere in the returned tree; the branch's
own type error is reported directly (because `add_errors` pushes a
single error without the `OneOf` wrapper). -/
theorem c3_counterexample :
    resHasKind ErrorKind.isOneOfNone 6 (validateStart c3g (.num 1) 1 5) = false
    ∧ (errCauses (validateStart c3g (.num 1) 1 5)).map (fun c => c.keywordPath)
        = [some ⟨"type", none⟩] := by
  exact ⟨rfl, rfl⟩

/-- Branch error used by the C3 witness. -/
def c3err : ValidationError :=
  { schemaUrl := "w", keywordPath := none, instanceLocation := [],
    kind := .falseSchema, causes := [] }

/-- Probe used by the C3 witness: branch 0 accepts (returning the
state's errors untouched), branch 1 rejects with `c3err`. -/
def c3vs : VS := fun stx sch _ _ =>
  if sch == 0 then some (⟨stx.uneval, stx.errors⟩, .ok ())
  else some (stx, .error c3err)

/-- Witness for `c3_amended`: the two-branch node whose first branch
alone accepts — the section appends no error. -/
theorem c3_amended_witness :
    ∃ u, cond_validate { Schema.new "u" 7 with one_of := [0, 1] } false [] c3vs
        ⟨⟨[], []⟩, []⟩
      = some ⟨u, ([] : List ValidationError) ++
          (match firstAccept (fun sch => sch == 0) [0, 1] 0 with
           | some _ =>
               (oneOfPairs (fun sch => sch == 0) [0, 1] 0 none).map
                 (fun p => mkError false "u" (some ⟨"oneOf", none⟩) [] (.oneOf (some p)))
           | none =>
               if ([0, 1] : List Nat).length == 1 then
                 rejectsUntilFirst (fun sch => sch == 0) (fun _ => c3err) [0, 1]
               else [{ mkError false "u" (some ⟨"oneOf", none⟩) [] (.oneOf none) with
                       causes := rejectsUntilFirst (fun sch => sch == 0) (fun _ => c3err) [0, 1] }])⟩ :=
  c3_amended { Schema.new "u" 7 with one_of := [0, 1] } false [] c3vs ⟨⟨[], []⟩, []⟩
    (fun sch => sch == 0) (fun _ => c3err) rfl rfl rfl rfl (by decide)
    (by
      intro sch hm hA stx b
      exact ⟨stx.uneval, by simp [c3vs, hA]⟩)
    (by
      intro sch hm hA stx
      simp [c3vs, hA])
    (by
      intro sch hm hA stx
      exact ⟨c3err, by simp [c3vs, hA]⟩)

end Boon
